import Mathlib

/-!
# SP3CTRUN backtest engine — verification development

Shallow embedding of the backtest engine (`src/trading_agents/backtest/engine.py`)
and of the parts of the repository it drives.  Monetary amounts and rates are
modelled as exact rationals (`ℚ`); the claims under study are about control
flow, ordering and exact step functions, not binary floating-point rounding.

The portfolio ledger (`backtest/portifolio.py`) and the metrics module are not
part of the provided sources; their operations are modelled from the
specification (each such definition carries a `Modelled from the spec:` doc
comment).  Everything else is translated from `engine.py` and `universe.py`.
-/

namespace Spectrun

/-- A trading-calendar date, as the engine observes it through a pandas
timestamp: calendar year, month (1–12), day of month, and weekday
(pandas convention: 0 = Monday .. 6 = Sunday). -/
structure Date where
  year : Nat
  month : Nat
  day : Nat
  weekday : Nat
deriving DecidableEq, Repr

/-- `date.strftime(·%Y-%m-%d·)` as used by the engine to key ledger calls. -/
def Date.fmt (d : Date) : String :=
  toString d.year ++ "-" ++ toString d.month ++ "-" ++ toString d.day

/-- Verdict emitted by the senior agent (`models.schemas.Verdict`). -/
inductive Verdict where
  | BUY
  | HOLD
  | SELL
deriving DecidableEq, Repr

/-- Trade direction. -/
inductive Action where
  | BUY
  | SELL
deriving DecidableEq, Repr

/-- Reason attached to a trade by the engine or the stop check. -/
inductive Reason where
  | REBALANCE
  | HOLD_EXPOSURE
  | NO_SIGNAL
  | STOP_LOSS
  | TAKE_PROFIT
deriving DecidableEq, Repr

/-- Modelled from the spec: an open position owned by the ledger
(ticker is the key of the position map, so not repeated here). -/
structure Position where
  shares : Nat
  entryPrice : ℚ
  entryDate : String
  stopLoss : ℚ
  takeProfit : ℚ
  currentPrice : ℚ
deriving DecidableEq, Repr

/-- Modelled from the spec: an immutable trade record. -/
structure Trade where
  ticker : String
  action : Action
  shares : Nat
  price : ℚ
  date : String
  commission : ℚ
  reason : Reason
  realizedPnl : Option ℚ
deriving DecidableEq, Repr

/-- Modelled from the spec: one end-of-day snapshot of the ledger. -/
structure Snapshot where
  date : String
  cash : ℚ
  positionsValue : ℚ
  totalValue : ℚ
  exposure : ℚ
  dailyReturn : ℚ
deriving DecidableEq, Repr

/-- Modelled from the spec: the portfolio ledger.  The position map is an
association list keyed by ticker (at most one entry per ticker, mirroring the
Python `dict`); trades and snapshots are append-only logs. -/
structure Portfolio where
  cash : ℚ
  positions : List (String × Position)
  trades : List Trade
  history : List Snapshot
  commissionPct : ℚ
  minPositionSize : ℚ
  maxPositionSize : ℚ
deriving DecidableEq, Repr

/-- Lookup in the position map (first entry with the given ticker). -/
def lookupPos (t : String) : List (String × Position) → Option Position
  | [] => none
  | e :: rest => if e.1 = t then some e.2 else lookupPos t rest

/-- Removal from the position map: drops every entry with the given ticker,
mirroring deletion of a `dict` key (which can occur at most once). -/
def erasePos (t : String) (l : List (String × Position)) :
    List (String × Position) :=
  l.filter (fun e => decide (e.1 ≠ t))

/-- Tickers currently held, in position-map order. -/
def heldTickers (p : Portfolio) : List String :=
  p.positions.map Prod.fst

/-- Whether a ticker has an open position. -/
def isHeld (p : Portfolio) (t : String) : Bool :=
  (lookupPos t p.positions).isSome

/-- Modelled from the spec: `positions_value`, the mark-to-market value of the
open positions. -/
def positionsValue (p : Portfolio) : ℚ :=
  (p.positions.map (fun e => (e.2.shares : ℚ) * e.2.currentPrice)).sum

/-- Modelled from the spec: `total_value = cash + positions_value`. -/
def totalValue (p : Portfolio) : ℚ :=
  p.cash + positionsValue p

/-- Modelled from the spec: `updatePrices` sets `current_price` for every held
position present in the supplied map; held tickers missing from the map keep
their last known price. -/
def update_prices (p : Portfolio) (prices : List (String × ℚ)) : Portfolio :=
  { p with positions := p.positions.map (fun e =>
      match prices.lookup e.1 with
      | some pr => (e.1, { e.2 with currentPrice := pr })
      | none => e) }

/-- Modelled from the spec: `applySelicToCash` — `cash *= (1 + dailyRate)`. -/
def apply_selic_to_cash (p : Portfolio) (_date : String) (dailyRate : ℚ) :
    Portfolio :=
  { p with cash := p.cash * (1 + dailyRate) }

/-- Modelled from the spec: `sell` — no trade when the ticker is not held or
the price is non-positive; otherwise credit `gross − commission` to cash,
remove the position and append the trade with its realized P&L. -/
def sell (p : Portfolio) (ticker : String) (price : ℚ) (date : String)
    (reason : Reason) : Portfolio × Option Trade :=
  match lookupPos ticker p.positions with
  | none => (p, none)
  | some pos =>
    if price ≤ 0 then (p, none)
    else
      let gross : ℚ := (pos.shares : ℚ) * price
      let commission := gross * p.commissionPct
      let tr : Trade :=
        { ticker := ticker, action := .SELL, shares := pos.shares,
          price := price, date := date, commission := commission,
          reason := reason,
          realizedPnl := some (gross - commission - pos.entryPrice * (pos.shares : ℚ)) }
      ({ p with cash := p.cash + gross - commission,
                positions := erasePos ticker p.positions,
                trades := p.trades ++ [tr] }, some tr)

/-- Modelled from the spec: `buy` — clamp the target percentage into
`[minPositionSize, maxPositionSize]`, size the position as
`floor(targetPct/100 × totalValue / price)` shares, and refuse (no state
change) when the ticker is already held, the price is non-positive, fewer
than one share is affordable at target, or cash cannot cover principal plus
commission. -/
def buy (p : Portfolio) (ticker : String) (price : ℚ) (targetPct : ℚ)
    (date : String) (stopLoss takeProfit : ℚ) (reason : Reason) :
    Portfolio × Option Trade :=
  let pct := max p.minPositionSize (min p.maxPositionSize targetPct)
  let targetValue := pct / 100 * totalValue p
  if isHeld p ticker then (p, none)
  else if price ≤ 0 then (p, none)
  else
    let shares : Nat := (targetValue / price).floor.toNat
    if shares < 1 then (p, none)
    else
      let principal : ℚ := (shares : ℚ) * price
      let commission := principal * p.commissionPct
      if p.cash < principal + commission then (p, none)
      else
        let pos : Position :=
          { shares := shares, entryPrice := price, entryDate := date,
            stopLoss := stopLoss, takeProfit := takeProfit,
            currentPrice := price }
        let tr : Trade :=
          { ticker := ticker, action := .BUY, shares := shares, price := price,
            date := date, commission := commission, reason := reason,
            realizedPnl := none }
        ({ p with cash := p.cash - principal - commission,
                  positions := p.positions ++ [(ticker, pos)],
                  trades := p.trades ++ [tr] }, some tr)

/-- Insert a string into an ascending list (insertion sort step). -/
def insertAsc (x : String) : List String → List String
  | [] => [x]
  | y :: ys => if x ≤ y then x :: y :: ys else y :: insertAsc x ys

/-- Sort tickers ascending — `checkStops` iterates held positions in ticker
ascending order. -/
def sortAsc : List String → List String
  | [] => []
  | x :: xs => insertAsc x (sortAsc xs)

/-- Modelled from the spec: the per-ticker body of `checkStops` — sell with
reason STOP_LOSS when `current_price ≤ stop_loss`, else with TAKE_PROFIT when
`current_price ≥ take_profit`. -/
def stopStep (date : String) (q : Portfolio) (t : String) : Portfolio :=
  match lookupPos t q.positions with
  | none => q
  | some pos =>
    if pos.currentPrice ≤ pos.stopLoss then
      (sell q t pos.currentPrice date .STOP_LOSS).1
    else if pos.takeProfit ≤ pos.currentPrice then
      (sell q t pos.currentPrice date .TAKE_PROFIT).1
    else q

/-- Modelled from the spec: `checkStops` — iterate held positions in ticker
ascending order, selling each triggered one; at most one sell per ticker per
call. -/
def check_stops (p : Portfolio) (date : String) : Portfolio :=
  (sortAsc (heldTickers p)).foldl (stopStep date) p

/-- Modelled from the spec: `recordState` — append the day's snapshot; the
daily return is `total/previous total − 1`, or `0` on the first recorded day.
(`ℚ` division by zero is `0`, matching the degenerate-value convention.) -/
def record_state (p : Portfolio) (date : String) : Portfolio :=
  let pv := positionsValue p
  let tv := totalValue p
  let ret : ℚ :=
    match p.history.getLast? with
    | none => 0
    | some prev => tv / prev.totalValue - 1
  { p with history := p.history ++
      [{ date := date, cash := p.cash, positionsValue := pv, totalValue := tv,
         exposure := 100 * pv / tv, dailyReturn := ret }] }

/-! ## Engine layer — translated from `src/trading_agents/backtest/engine.py` -/

/-- The SELIC daily rate hard-coded by the engine (`0.00035`). -/
def selicDaily : ℚ := 0.00035

/-- Errors the engine raises before the simulation loop starts. -/
inductive EngineError where
  | universeTooSmall (n : Nat)
  | emptyPriceData
  | invalidFrequency (freq : String)
deriving DecidableEq, Repr

/-- A price table: rows in date order; each row maps tickers to prices. -/
abbrev PriceTable := List (Date × List (String × ℚ))

/-- `state.analyst_report` as consumed by the engine (only `score` is read). -/
structure AnalystReport where
  score : ℚ
deriving DecidableEq, Repr

/-- `state.senior_decision` as consumed by the engine. -/
structure SeniorDecision where
  final_verdict : Verdict
  position_size : ℚ
  confidence : Option ℚ
  stop_loss : ℚ
  take_profit : ℚ
deriving DecidableEq, Repr

/-- The pipeline state returned by `run_trading_pipeline`. -/
structure PipelineState where
  pipeline_status : String
  senior_decision : Option SeniorDecision
  analyst_report : Option AnalystReport
deriving DecidableEq, Repr

/-- The external multi-agent pipeline: for a ticker and date, either a
pipeline state, or an exception (`Except.error`). -/
abbrev Pipeline := String → String → Except String PipelineState

/-- The decision dict built by `run_agents_for_ticker` from a completed
pipeline state. -/
structure Decision where
  ticker : String
  verdict : Verdict
  position_size : ℚ
  confidence : Option ℚ
  stop_loss : ℚ
  take_profit : ℚ
  analyst_score : Option ℚ
deriving DecidableEq, Repr

/-- `BacktestEngine.run_agents_for_ticker`: run the pipeline inside a
`try/except`; any exception yields `none`; a completed state with a senior
decision is turned into a decision dict (`analyst_score` is `none` when no
analyst report exists); anything else yields `none`. -/
def run_agents_for_ticker (pipeline : Pipeline) (ticker : String)
    (as_of : String) : Option Decision :=
  match pipeline ticker as_of with
  | .error _ => none
  | .ok state =>
    if state.pipeline_status = "completed" then
      match state.senior_decision with
      | some sd =>
        some { ticker := ticker, verdict := sd.final_verdict,
               position_size := sd.position_size,
               confidence := sd.confidence, stop_loss := sd.stop_loss,
               take_profit := sd.take_profit,
               analyst_score := (state.analyst_report).map AnalystReport.score }
      | none => none
    else none

/-- The day's decision list: the per-ticker analysis loop of
`rebalance_portfolio` (decisions are collected only when the per-ticker call
returns one). -/
def decisionsFor (pipeline : Pipeline) (univTickers : List String)
    (as_of : String) : List Decision :=
  univTickers.filterMap (fun t => run_agents_for_ticker pipeline t as_of)

/-- The ranking key used by `rebalance_portfolio`:
`(analyst_score or 0) * (confidence or 0)`. -/
def signalKey (d : Decision) : ℚ :=
  d.analyst_score.getD 0 * d.confidence.getD 0

/-- One step of the stable descending sort: the new element is placed before
the first element whose key is `≤` its own, so it lands after every earlier
element with a strictly greater key and before later elements with equal
keys. -/
def insertDesc (x : Decision) : List Decision → List Decision
  | [] => [x]
  | y :: ys => if signalKey y ≤ signalKey x then x :: y :: ys
               else y :: insertDesc x ys

/-- `list.sort(key=…, reverse=True)`: Python's sort is stable; a stable
descending sort by `signalKey`. -/
def rank_signals : List Decision → List Decision
  | [] => []
  | x :: xs => insertDesc x (rank_signals xs)

/-- The allocation step function of `rebalance_portfolio` on the number of
BUY signals (fractions of total capital: buy, hold, cash). -/
def allocationFor (numBuy : Nat) : ℚ × ℚ × ℚ :=
  if 15 ≤ numBuy then (0.90, 0.05, 0.05)
  else if 10 ≤ numBuy then (0.80, 0.10, 0.10)
  else if 5 ≤ numBuy then (0.60, 0.25, 0.15)
  else (0.40, 0.45, 0.15)

/-- `keep_tickers`: tickers of the top 15 ranked BUY signals together with
those of the top 20 ranked HOLD signals. -/
def keep_tickers (buySignals holdSignals : List Decision) : List String :=
  (buySignals.take 15).map Decision.ticker ++
    (holdSignals.take 20).map Decision.ticker

/-- The body of the liquidation loop of `rebalance_portfolio`: sell the
ticker with reason NO_SIGNAL, skipping it when it is absent from the day's
price row. -/
def liquidate (currentPrices : List (String × ℚ)) (dateStr : String)
    (q : Portfolio) (t : String) : Portfolio :=
  match currentPrices.lookup t with
  | some price => (sell q t price dateStr .NO_SIGNAL).1
  | none => q

/-- The liquidation loop of `rebalance_portfolio`: for every currently held
ticker outside the keep set, sell with reason NO_SIGNAL. -/
def sellPhase (currentPrices : List (String × ℚ)) (dateStr : String)
    (keep : List String) (p : Portfolio) : Portfolio :=
  let toSell := (heldTickers p).filter (fun t => decide (t ∉ keep))
  toSell.foldl (liquidate currentPrices dateStr) p

/-- A buying loop of `rebalance_portfolio` (shared shape of the BUY tier,
pool 15, reason REBALANCE, and the HOLD tier, pool 20, reason HOLD_EXPOSURE):
per-position percentage from the tier allocation and pool size, then for each
of the top `pool` ranked signals, skip tickers missing from the price row and
tickers already held, otherwise buy.  `tierBuy` is the loop body. -/
def tierBuy (currentPrices : List (String × ℚ)) (dateStr : String)
    (positionPct : ℚ) (reason : Reason) (q : Portfolio) (s : Decision) :
    Portfolio :=
  match currentPrices.lookup s.ticker with
  | none => q
  | some price =>
    if isHeld q s.ticker then q
    else (buy q s.ticker price positionPct dateStr s.stop_loss s.take_profit
            reason).1

/-- A buying loop of `rebalance_portfolio` (see `tierBuy` for the body). -/
def buyPhase (currentPrices : List (String × ℚ)) (dateStr : String)
    (signals : List Decision) (pool : Nat) (alloc : ℚ) (totalCapital : ℚ)
    (reason : Reason) (p : Portfolio) : Portfolio :=
  let tierCapital := totalCapital * alloc
  let perPosition := tierCapital / (min pool (max 1 signals.length) : ℚ)
  let positionPct := perPosition / totalCapital * 100
  (signals.take pool).foldl
    (tierBuy currentPrices dateStr positionPct reason) p

/-- The ranked BUY tier of the day (verdict BUY, stable-sorted by
`score × confidence` descending). -/
def buyTier (pipeline : Pipeline) (univTickers : List String)
    (dateStr : String) : List Decision :=
  rank_signals ((decisionsFor pipeline univTickers dateStr).filter
    (fun d => d.verdict = .BUY))

/-- The ranked HOLD tier of the day. -/
def holdTier (pipeline : Pipeline) (univTickers : List String)
    (dateStr : String) : List Decision :=
  rank_signals ((decisionsFor pipeline univTickers dateStr).filter
    (fun d => d.verdict = .HOLD))

/-- `BacktestEngine.rebalance_portfolio`, in the order of the source: update
prices from the day's row, apply the SELIC accrual to cash (a second
application on rebalance days — the daily loop already applied it), collect
the day's decisions, partition into BUY and HOLD tiers, rank each tier, fix
`total_capital`, pick the allocation from the BUY count, build the keep set,
liquidate held tickers outside it, then run the BUY-tier and HOLD-tier buying
loops. -/
def rebalance_portfolio (pipeline : Pipeline) (univTickers : List String)
    (currentPrices : List (String × ℚ)) (dateStr : String) (p : Portfolio) :
    Portfolio :=
  let p := update_prices p currentPrices
  let p := apply_selic_to_cash p dateStr selicDaily
  let buySignals := buyTier pipeline univTickers dateStr
  let holdSignals := holdTier pipeline univTickers dateStr
  let totalCapital := totalValue p
  let alloc := allocationFor buySignals.length
  let keep := keep_tickers buySignals holdSignals
  let p := sellPhase currentPrices dateStr keep p
  let p := buyPhase currentPrices dateStr buySignals 15 alloc.1 totalCapital
    .REBALANCE p
  buyPhase currentPrices dateStr holdSignals 20 alloc.2.1 totalCapital
    .HOLD_EXPOSURE p

/-- One iteration of the engine's main loop (`BacktestEngine.run`): update
prices from the day's row, apply the SELIC accrual, check stops, rebalance
when the date is a rebalance date, then record the day's snapshot. -/
def runDay (pipeline : Pipeline) (univTickers : List String)
    (rebalanceDates : List Date) (p : Portfolio)
    (day : Date × List (String × ℚ)) : Portfolio :=
  let dateStr := day.1.fmt
  let p := update_prices p day.2
  let p := apply_selic_to_cash p dateStr selicDaily
  let p := check_stops p dateStr
  let p := if day.1 ∈ rebalanceDates then
      rebalance_portfolio pipeline univTickers day.2 dateStr p
    else p
  record_state p dateStr

/-- The `monthly` branch of `get_rebalance_dates`: walk the trading calendar
carrying `current_month` (initially `None`); a date whose month differs is
appended and becomes the new `current_month`. -/
def monthlyFirsts : Option Nat → List Date → List Date
  | _, [] => []
  | cur, d :: rest =>
    if cur ≠ some d.month then d :: monthlyFirsts (some d.month) rest
    else monthlyFirsts cur rest

/-- The `quarterly` branch of `get_rebalance_dates`: same walk carrying
`current_quarter = (year, (month − 1) / 3)`. -/
def quarterlyFirsts : Option (Nat × Nat) → List Date → List Date
  | _, [] => []
  | cur, d :: rest =>
    let yearQuarter := (d.year, (d.month - 1) / 3)
    if cur ≠ some yearQuarter then d :: quarterlyFirsts (some yearQuarter) rest
    else quarterlyFirsts cur rest

/-- `BacktestEngine.get_rebalance_dates`: weekly = every Monday of the price
index; monthly / quarterly = the stateful first-day walks; any other
frequency raises. -/
def get_rebalance_dates (freq : String) (allDates : List Date) :
    Except EngineError (List Date) :=
  if freq = "weekly" then
    .ok (allDates.filter (fun d => d.weekday = 0))
  else if freq = "monthly" then
    .ok (monthlyFirsts none allDates)
  else if freq = "quarterly" then
    .ok (quarterlyFirsts none allDates)
  else
    .error (.invalidFrequency freq)

/-- `BacktestEngine.prepare_data`: when no universe was supplied, derive it
from the provider and raise if it has fewer than 10 tickers (the size check
lives only in that branch); then download the price table and raise if it is
empty. The providers are parameters (network collaborators). -/
def prepare_data (universeOpt : Option (List String))
    (getUniverse : List String) (getPriceData : List String → PriceTable) :
    Except EngineError (List String × PriceTable) :=
  match universeOpt with
  | none =>
    if getUniverse.length < 10 then
      .error (.universeTooSmall getUniverse.length)
    else
      let priceData := getPriceData getUniverse
      if priceData.isEmpty then .error .emptyPriceData
      else .ok (getUniverse, priceData)
  | some u =>
    let priceData := getPriceData u
    if priceData.isEmpty then .error .emptyPriceData
    else .ok (u, priceData)

/-- The initial ledger: starting cash, no positions, empty logs. -/
def initPortfolio (initialCapital commissionPct minPositionSize
    maxPositionSize : ℚ) : Portfolio :=
  { cash := initialCapital, positions := [], trades := [], history := [],
    commissionPct := commissionPct, minPositionSize := minPositionSize,
    maxPositionSize := maxPositionSize }

/-- `BacktestEngine.run`: prepare the data, compute the rebalance dates, then
fold the daily loop over the price table.  A configuration error
short-circuits before any simulated day is processed. -/
def engineRun (initialCapital commissionPct minPositionSize
    maxPositionSize : ℚ) (rebalanceFrequency : String)
    (universeOpt : Option (List String)) (getUniverse : List String)
    (getPriceData : List String → PriceTable) (pipeline : Pipeline) :
    Except EngineError Portfolio :=
  match prepare_data universeOpt getUniverse getPriceData with
  | .error e => .error e
  | .ok (univTickers, priceData) =>
    match get_rebalance_dates rebalanceFrequency (priceData.map Prod.fst) with
    | .error e => .error e
    | .ok rebalanceDates =>
      .ok (priceData.foldl (runDay pipeline univTickers rebalanceDates)
        (initPortfolio initialCapital commissionPct minPositionSize
          maxPositionSize))

/-! ## Price download — translated from `src/trading_agents/backtest/universe.py` -/

/-- A downloaded close-price column: rows in date order; `none` is a NaN. -/
abbrev RawColumn := List (Date × Option ℚ)

/-- The row values of a set of columns at a date (`none` when absent). -/
def rowAt (cols : List (String × RawColumn)) (d : Date) : List (Option ℚ) :=
  cols.map (fun c => match c.2.lookup d with
    | some v => v
    | none => none)

/-- The union of the columns' date indexes, in first-appearance order (the
provider's columns share one trading calendar, so order agrees). -/
def unionDates (cols : List (String × RawColumn)) : List Date :=
  (cols.flatMap (fun c => c.2.map Prod.fst)).dedup

/-- Forward-fill a row list per column (pandas `fillna(method='ffill')`):
each `none` is replaced by the last value seen above it, when any. -/
def ffillColumn (last : Option ℚ) : List (Option ℚ) → List (Option ℚ)
  | [] => []
  | v :: rest =>
    match v with
    | some x => some x :: ffillColumn (some x) rest
    | none => last :: ffillColumn last rest

/-- `get_price_data`'s cleaning block, on an explicit grid: drop rows where
every column is NaN, forward-fill each column, then drop rows still holding a
NaN (leading rows of the series). -/
def cleanTable (cols : List (String × RawColumn)) : PriceTable :=
  let dates := unionDates cols
  let grid := dates.map (fun d => (d, rowAt cols d))
  let grid := grid.filter (fun r => r.2.any Option.isSome)
  let names := cols.map Prod.fst
  let columns := names.length
  let filled := (List.range columns).map (fun j =>
    ffillColumn none (grid.map (fun r => r.2.getD j none)))
  let rows := (List.range grid.length).map (fun i =>
    ((grid.getD i (⟨0, 0, 0, 0⟩, [])).1,
      (List.range columns).map (fun j => (filled.getD j []).getD i none)))
  (rows.filterMap (fun r =>
    if r.2.all Option.isSome then
      some (r.1, names.zip (r.2.filterMap id))
    else none))

/-- `universe.get_price_data` over a per-ticker download oracle (`none`
models a failed `_safe_download_single`, whose exception the loop catches by
skipping the ticker): collect the successful columns; with no columns at all
the empty table is returned untouched, otherwise the cleaning block runs. -/
def get_price_data (download : String → Option RawColumn)
    (tickers : List String) : PriceTable :=
  let cols := tickers.filterMap (fun t => (download t).map (fun c => (t, c)))
  if cols.isEmpty then [] else cleanTable cols

/-! ## Claim-side definitions (written from the spec's words, for refinement
comparisons) -/

/-- Claim side: walk the calendar remembering the previous trading day; a
date is selected iff its month differs from the previous trading day's month
(the first trading day, having no previous day, is selected). -/
def specMonthlyAux : Date → List Date → List Date
  | _, [] => []
  | prev, d :: rest =>
    if d.month ≠ prev.month then d :: specMonthlyAux d rest
    else specMonthlyAux d rest

/-- Claim side: the dates whose calendar month differs from the previous
trading day's month. -/
def specMonthly : List Date → List Date
  | [] => []
  | d :: rest => d :: specMonthlyAux d rest

/-- The (year, quarter) pair of a date, quarter = `(month − 1) div 3`. -/
def yearQuarter (d : Date) : Nat × Nat :=
  (d.year, (d.month - 1) / 3)

/-- Claim side: a date is selected iff its (year, quarter) pair differs from
the previous trading day's pair (the first trading day is selected). -/
def specQuarterlyAux : Date → List Date → List Date
  | _, [] => []
  | prev, d :: rest =>
    if yearQuarter d ≠ yearQuarter prev then d :: specQuarterlyAux d rest
    else specQuarterlyAux d rest

/-- Claim side: the dates whose (year, quarter) pair differs from the
previous trading day's pair. -/
def specQuarterly : List Date → List Date
  | [] => []
  | d :: rest => d :: specQuarterlyAux d rest

/-! ## Helper lemmas -/

theorem monthlyFirsts_eq_aux (prev : Date) (l : List Date) :
    monthlyFirsts (some prev.month) l = specMonthlyAux prev l := by
  induction l generalizing prev with
  | nil => rfl
  | cons d rest ih =>
    simp only [monthlyFirsts, specMonthlyAux]
    by_cases h : d.month = prev.month
    · simp only [h, ne_eq, not_true_eq_false, if_neg, if_false,
        Option.some.injEq, not_not]
      rw [← h]
      exact ih d
    · have h' : ¬ some prev.month = some d.month := by
        simp only [Option.some.injEq]
        exact fun hc => h hc.symm
      simp only [ne_eq, h', not_false_eq_true, if_true, h]
      rw [ih d]

theorem quarterlyFirsts_eq_aux (prev : Date) (l : List Date) :
    quarterlyFirsts (some (yearQuarter prev)) l = specQuarterlyAux prev l := by
  induction l generalizing prev with
  | nil => rfl
  | cons d rest ih =>
    simp only [quarterlyFirsts, specQuarterlyAux]
    by_cases h : yearQuarter d = yearQuarter prev
    · rw [show ((d.year, (d.month - 1) / 3) : Nat × Nat) = yearQuarter d from rfl]
      simp only [h, ne_eq, not_true_eq_false, if_false, Option.some.injEq,
        not_not, if_neg]
      rw [← h]
      exact ih d
    · rw [show ((d.year, (d.month - 1) / 3) : Nat × Nat) = yearQuarter d from rfl]
      have h' : ¬ some (yearQuarter prev) = some (yearQuarter d) := by
        simp only [Option.some.injEq]
        exact fun hc => h hc.symm
      simp only [ne_eq, h', not_false_eq_true, if_true, h]
      rw [ih d]

theorem mem_insertDesc {a x : Decision} {l : List Decision} :
    a ∈ insertDesc x l ↔ a = x ∨ a ∈ l := by
  induction l with
  | nil => simp [insertDesc]
  | cons y ys ih =>
    by_cases h : signalKey y ≤ signalKey x
    · simp [insertDesc, h]
    · simp only [insertDesc, h, if_false, List.mem_cons, ih]
      tauto

theorem pairwise_insertDesc {x : Decision} {l : List Decision}
    (h : l.Pairwise (fun a b => signalKey b ≤ signalKey a)) :
    (insertDesc x l).Pairwise (fun a b => signalKey b ≤ signalKey a) := by
  induction l with
  | nil => simp [insertDesc]
  | cons y ys ih =>
    rw [List.pairwise_cons] at h
    by_cases hxy : signalKey y ≤ signalKey x
    · rw [insertDesc, if_pos hxy, List.pairwise_cons]
      refine ⟨?_, List.Pairwise.cons h.1 h.2⟩
      intro b hb
      rcases List.mem_cons.mp hb with hb | hb
      · exact hb ▸ hxy
      · exact le_trans (h.1 b hb) hxy
    · rw [insertDesc, if_neg hxy, List.pairwise_cons]
      refine ⟨?_, ih h.2⟩
      intro b hb
      rcases mem_insertDesc.mp hb with hb | hb
      · rw [hb]
        exact le_of_lt (lt_of_not_le hxy)
      · exact h.1 b hb

theorem insertDesc_perm (x : Decision) (l : List Decision) :
    List.Perm (insertDesc x l) (x :: l) := by
  induction l with
  | nil => exact List.Perm.refl _
  | cons y ys ih =>
    by_cases h : signalKey y ≤ signalKey x
    · rw [insertDesc, if_pos h]
    · rw [insertDesc, if_neg h]
      exact (ih.cons y).trans (List.Perm.swap x y ys)

theorem filter_insertDesc_of_key {x : Decision} {l : List Decision} {k : ℚ}
    (hx : signalKey x = k) :
    (insertDesc x l).filter (fun d => decide (signalKey d = k))
      = x :: l.filter (fun d => decide (signalKey d = k)) := by
  induction l with
  | nil => simp [insertDesc, List.filter, hx]
  | cons y ys ih =>
    by_cases hxy : signalKey y ≤ signalKey x
    · rw [insertDesc, if_pos hxy, List.filter_cons, if_pos (by simp [hx])]
    · have hy : ¬ signalKey y = k := fun hc =>
        hxy (le_of_eq (hc.trans hx.symm))
      rw [insertDesc, if_neg hxy, List.filter_cons, List.filter_cons]
      simp only [hy, decide_eq_true_eq, if_neg, not_false_eq_true, ih]

theorem filter_insertDesc_of_ne {x : Decision} {l : List Decision} {k : ℚ}
    (hx : ¬ signalKey x = k) :
    (insertDesc x l).filter (fun d => decide (signalKey d = k))
      = l.filter (fun d => decide (signalKey d = k)) := by
  induction l with
  | nil => simp [insertDesc, List.filter, hx]
  | cons y ys ih =>
    by_cases hxy : signalKey y ≤ signalKey x
    · rw [insertDesc, if_pos hxy, List.filter_cons, if_neg (by simp [hx])]
    · rw [insertDesc, if_neg hxy, List.filter_cons, List.filter_cons]
      cases hpy : decide (signalKey y = k) <;> simp [ih]

theorem lookupPos_erase_self (t : String) (l : List (String × Position)) :
    lookupPos t (erasePos t l) = none := by
  induction l with
  | nil => rfl
  | cons e rest ih =>
    by_cases h : e.1 = t
    · simpa [erasePos, List.filter_cons, h] using ih
    · simpa [erasePos, List.filter_cons, h, lookupPos] using ih

theorem lookupPos_erase_ne {t t' : String} (h : t ≠ t')
    (l : List (String × Position)) :
    lookupPos t (erasePos t' l) = lookupPos t l := by
  induction l with
  | nil => rfl
  | cons e rest ih =>
    by_cases he : e.1 = t'
    · have hne : ¬ e.1 = t := fun hc => h (hc.symm.trans he)
      have h1 : erasePos t' (e :: rest) = erasePos t' rest := by
        simp [erasePos, List.filter_cons, he]
      rw [h1, ih, lookupPos, if_neg hne]
    · have h1 : erasePos t' (e :: rest) = e :: erasePos t' rest := by
        simp [erasePos, List.filter_cons, he]
      by_cases ht : e.1 = t
      · rw [h1, lookupPos, if_pos ht, lookupPos, if_pos ht]
      · rw [h1, lookupPos, if_neg ht, lookupPos, if_neg ht, ih]

theorem lookupPos_append_single_ne {t t' : String} (h : t ≠ t')
    (l : List (String × Position)) (pos : Position) :
    lookupPos t (l ++ [(t', pos)]) = lookupPos t l := by
  have h' : ¬ t' = t := fun hc => h hc.symm
  induction l with
  | nil => simp [lookupPos, h']
  | cons e rest ih =>
    by_cases ht : e.1 = t <;> simp [lookupPos, ht, ih]

theorem lookupPos_eq_none_iff (t : String) (l : List (String × Position)) :
    lookupPos t l = none ↔ t ∉ l.map Prod.fst := by
  induction l with
  | nil => simp [lookupPos]
  | cons e rest ih =>
    by_cases ht : e.1 = t
    · simp [lookupPos, ht]
    · have h' : ¬ t = e.1 := fun hc => ht hc.symm
      simp [lookupPos, ht, ih, h']

/-- The per-position effect of `updatePrices` on a looked-up position. -/
def updPos (prices : List (String × ℚ)) (t : String) (pos : Position) :
    Position :=
  match prices.lookup t with
  | some pr => { pos with currentPrice := pr }
  | none => pos

theorem lookupPos_update_prices (p : Portfolio) (prices : List (String × ℚ))
    (t : String) :
    lookupPos t (update_prices p prices).positions
      = (lookupPos t p.positions).map (updPos prices t) := by
  show lookupPos t (p.positions.map _) = _
  induction p.positions with
  | nil => rfl
  | cons e rest ih =>
    by_cases ht : e.1 = t
    · subst ht
      cases hp : prices.lookup e.1 <;> simp [lookupPos, hp, updPos]
    · cases hp : prices.lookup e.1 <;> simp [lookupPos, hp, ht, ih]

theorem heldTickers_update_prices (p : Portfolio)
    (prices : List (String × ℚ)) :
    heldTickers (update_prices p prices) = heldTickers p := by
  show (p.positions.map _).map Prod.fst = p.positions.map Prod.fst
  induction p.positions with
  | nil => rfl
  | cons e rest ih =>
    cases hp : prices.lookup e.1 <;> simpa [hp] using ih

theorem sell_lookup_ne {t t' : String} (h : t ≠ t') (q : Portfolio)
    (pr : ℚ) (d : String) (r : Reason) :
    lookupPos t ((sell q t' pr d r).1).positions = lookupPos t q.positions := by
  unfold sell
  cases hl : lookupPos t' q.positions with
  | none => rfl
  | some pos => by_cases hp : pr ≤ 0 <;> simp [hp, lookupPos_erase_ne h]

theorem sell_not_add {t : String} (q : Portfolio) (t' : String) (pr : ℚ)
    (d : String) (r : Reason) (h : lookupPos t q.positions = none) :
    lookupPos t ((sell q t' pr d r).1).positions = none := by
  unfold sell
  cases hl : lookupPos t' q.positions with
  | none => exact h
  | some pos =>
    by_cases hp : pr ≤ 0
    · simp [hp, h]
    · by_cases ht : t = t'
      · simp [hp, ht, lookupPos_erase_self]
      · simp [hp, lookupPos_erase_ne ht, h]

theorem sell_removes {t' : String} {q : Portfolio} {pr : ℚ} {pos : Position}
    (d : String) (r : Reason) (hl : lookupPos t' q.positions = some pos)
    (hp : ¬ pr ≤ 0) :
    lookupPos t' ((sell q t' pr d r).1).positions = none := by
  unfold sell
  simp [hl, hp, lookupPos_erase_self]

theorem sell_trade_appended {t' : String} {q : Portfolio} {pr : ℚ}
    {pos : Position} (d : String) (r : Reason)
    (hl : lookupPos t' q.positions = some pos) (hp : ¬ pr ≤ 0) :
    ∃ tr, ((sell q t' pr d r).1).trades = q.trades ++ [tr]
      ∧ tr.ticker = t' ∧ tr.action = .SELL ∧ tr.reason = r
      ∧ tr.shares = pos.shares := by
  unfold sell
  simp only [hl]
  rw [if_neg hp]
  refine ⟨_, rfl, rfl, rfl, rfl, rfl⟩

theorem sell_trades_delta (q : Portfolio) (t' : String) (pr : ℚ) (d : String)
    (r : Reason) :
    ∃ Δ, ((sell q t' pr d r).1).trades = q.trades ++ Δ
      ∧ ∀ tr ∈ Δ, tr.ticker = t' ∧ tr.action = .SELL ∧ tr.reason = r := by
  cases hl : lookupPos t' q.positions with
  | none =>
    have hq : (sell q t' pr d r).1 = q := by
      unfold sell
      rw [hl]
    rw [hq]
    exact ⟨[], (List.append_nil _).symm,
      fun tr htr => absurd htr (List.not_mem_nil tr)⟩
  | some pos =>
    by_cases hp : pr ≤ 0
    · have hq : (sell q t' pr d r).1 = q := by
        unfold sell
        simp only [hl]
        rw [if_pos hp]
      rw [hq]
      exact ⟨[], (List.append_nil _).symm,
        fun tr htr => absurd htr (List.not_mem_nil tr)⟩
    · obtain ⟨tr, htr, h1, h2, h3, _⟩ := sell_trade_appended d r hl hp
      refine ⟨[tr], htr, ?_⟩
      intro tr' htr'
      rw [List.mem_singleton] at htr'
      subst htr'
      exact ⟨h1, h2, h3⟩

theorem buy_lookup_ne {t t' : String} (h : t ≠ t') (q : Portfolio)
    (pr pct : ℚ) (d : String) (sl tp : ℚ) (r : Reason) :
    lookupPos t ((buy q t' pr pct d sl tp r).1).positions
      = lookupPos t q.positions := by
  simp only [buy]
  split_ifs <;>
    first
      | rfl
      | exact lookupPos_append_single_ne h q.positions _

theorem buy_preserves_some {t : String} {q : Portfolio} {pos : Position}
    (h : lookupPos t q.positions = some pos) (t' : String) (pr pct : ℚ)
    (d : String) (sl tp : ℚ) (r : Reason) :
    lookupPos t ((buy q t' pr pct d sl tp r).1).positions = some pos := by
  by_cases ht : t = t'
  · subst ht
    have hh : isHeld q t := by simp [isHeld, h]
    unfold buy
    simp [hh, h]
  · rw [buy_lookup_ne ht]
    exact h

theorem buy_trades_delta (q : Portfolio) (t' : String) (pr pct : ℚ)
    (d : String) (sl tp : ℚ) (r : Reason) :
    ∃ Δ, ((buy q t' pr pct d sl tp r).1).trades = q.trades ++ Δ
      ∧ ∀ tr ∈ Δ, tr.ticker = t' ∧ tr.action = .BUY ∧ tr.reason = r := by
  simp only [buy]
  split_ifs <;>
    first
      | exact ⟨[], (List.append_nil _).symm,
          fun tr htr => absurd htr (List.not_mem_nil tr)⟩
      | · refine ⟨[_], rfl, ?_⟩
          intro tr htr
          rw [List.mem_singleton] at htr
          subst htr
          exact ⟨rfl, rfl, rfl⟩

theorem mem_insertAsc {a x : String} {l : List String} :
    a ∈ insertAsc x l ↔ a = x ∨ a ∈ l := by
  induction l with
  | nil => simp [insertAsc]
  | cons y ys ih =>
    by_cases h : x ≤ y
    · simp [insertAsc, h]
    · simp only [insertAsc, h, if_false, List.mem_cons, ih]
      tauto

theorem mem_sortAsc {a : String} {l : List String} :
    a ∈ sortAsc l ↔ a ∈ l := by
  induction l with
  | nil => simp [sortAsc]
  | cons x xs ih => simp [sortAsc, mem_insertAsc, ih]

theorem stopStep_not_add {s : String} (d : String) (q : Portfolio)
    (t : String) (h : lookupPos s q.positions = none) :
    lookupPos s (stopStep d q t).positions = none := by
  unfold stopStep
  cases hl : lookupPos t q.positions with
  | none => exact h
  | some pos =>
    by_cases h1 : pos.currentPrice ≤ pos.stopLoss
    · simp only [h1, if_true]
      exact sell_not_add q t pos.currentPrice d .STOP_LOSS h
    · by_cases h2 : pos.takeProfit ≤ pos.currentPrice
      · simp only [h1, if_false, h2, if_true]
        exact sell_not_add q t pos.currentPrice d .TAKE_PROFIT h
      · simp only [h1, if_false, h2]
        exact h

theorem stopStep_preserve_ne {s t : String} (h : s ≠ t) (d : String)
    (q : Portfolio) :
    lookupPos s (stopStep d q t).positions = lookupPos s q.positions := by
  unfold stopStep
  cases hl : lookupPos t q.positions with
  | none => rfl
  | some pos =>
    by_cases h1 : pos.currentPrice ≤ pos.stopLoss
    · simp only [h1, if_true]
      exact sell_lookup_ne h q pos.currentPrice d .STOP_LOSS
    · by_cases h2 : pos.takeProfit ≤ pos.currentPrice
      · simp only [h1, if_false, h2, if_true]
        exact sell_lookup_ne h q pos.currentPrice d .TAKE_PROFIT
      · simp only [h1, if_false, h2]

theorem stopStep_fires {t : String} {q : Portfolio} {pos : Position}
    (d : String) (hl : lookupPos t q.positions = some pos)
    (htrig : pos.currentPrice ≤ pos.stopLoss) (hpr : 0 < pos.currentPrice) :
    lookupPos t (stopStep d q t).positions = none
    ∧ ∃ tr, (stopStep d q t).trades = q.trades ++ [tr]
      ∧ tr.ticker = t ∧ tr.action = .SELL ∧ tr.reason = .STOP_LOSS := by
  have hp : ¬ pos.currentPrice ≤ 0 := not_le.mpr hpr
  unfold stopStep
  simp only [hl, htrig, if_true]
  refine ⟨sell_removes d .STOP_LOSS hl hp, ?_⟩
  obtain ⟨tr, h1, h2, h3, h4, _⟩ := sell_trade_appended d .STOP_LOSS hl hp
  exact ⟨tr, h1, h2, h3, h4⟩

theorem stopStep_trades_delta (d : String) (q : Portfolio) (t : String) :
    ∃ Δ, (stopStep d q t).trades = q.trades ++ Δ := by
  unfold stopStep
  cases hl : lookupPos t q.positions with
  | none => exact ⟨[], (List.append_nil _).symm⟩
  | some pos =>
    by_cases h1 : pos.currentPrice ≤ pos.stopLoss
    · simp only [h1, if_true]
      obtain ⟨Δ, hΔ, _⟩ := sell_trades_delta q t pos.currentPrice d .STOP_LOSS
      exact ⟨Δ, hΔ⟩
    · by_cases h2 : pos.takeProfit ≤ pos.currentPrice
      · simp only [h1, if_false, h2, if_true]
        obtain ⟨Δ, hΔ, _⟩ := sell_trades_delta q t pos.currentPrice d
          .TAKE_PROFIT
        exact ⟨Δ, hΔ⟩
      · simp only [h1, if_false, h2]
        exact ⟨[], (List.append_nil _).symm⟩

theorem liquidate_preserve_ne {s t : String} (h : s ≠ t)
    (cp : List (String × ℚ)) (ds : String) (q : Portfolio) :
    lookupPos s (liquidate cp ds q t).positions = lookupPos s q.positions := by
  unfold liquidate
  cases hp : cp.lookup t with
  | none => rfl
  | some price => exact sell_lookup_ne h q price ds .NO_SIGNAL

theorem liquidate_not_add {s : String} (cp : List (String × ℚ)) (ds : String)
    (q : Portfolio) (t : String) (h : lookupPos s q.positions = none) :
    lookupPos s (liquidate cp ds q t).positions = none := by
  unfold liquidate
  cases hp : cp.lookup t with
  | none => exact h
  | some price => exact sell_not_add q t price ds .NO_SIGNAL h

theorem liquidate_preserve_price_none {t : String} (cp : List (String × ℚ))
    (ds : String) (q : Portfolio) (a : String) (h : cp.lookup t = none) :
    lookupPos t (liquidate cp ds q a).positions = lookupPos t q.positions := by
  by_cases hat : a = t
  · subst hat
    unfold liquidate
    rw [h]
  · exact liquidate_preserve_ne (fun hc => hat hc.symm) cp ds q

theorem liquidate_fires {t : String} {q : Portfolio} {pos : Position}
    {pr : ℚ} (cp : List (String × ℚ)) (ds : String)
    (hl : lookupPos t q.positions = some pos) (hp : cp.lookup t = some pr)
    (hpr : 0 < pr) :
    lookupPos t (liquidate cp ds q t).positions = none
    ∧ ∃ tr, (liquidate cp ds q t).trades = q.trades ++ [tr]
      ∧ tr.ticker = t ∧ tr.action = .SELL ∧ tr.reason = .NO_SIGNAL := by
  have hple : ¬ pr ≤ 0 := not_le.mpr hpr
  unfold liquidate
  rw [hp]
  refine ⟨sell_removes ds .NO_SIGNAL hl hple, ?_⟩
  obtain ⟨tr, h1, h2, h3, h4, _⟩ := sell_trade_appended ds .NO_SIGNAL hl hple
  exact ⟨tr, h1, h2, h3, h4⟩

theorem liquidate_trades_delta (cp : List (String × ℚ)) (ds : String)
    (q : Portfolio) (t : String) :
    ∃ Δ, (liquidate cp ds q t).trades = q.trades ++ Δ
      ∧ ∀ tr ∈ Δ, tr.ticker = t ∧ tr.action = .SELL
        ∧ tr.reason = .NO_SIGNAL := by
  unfold liquidate
  cases hp : cp.lookup t with
  | none =>
    exact ⟨[], (List.append_nil _).symm,
      fun tr htr => absurd htr (List.not_mem_nil tr)⟩
  | some price => exact sell_trades_delta q t price ds .NO_SIGNAL

theorem tierBuy_preserve_some {t : String} {q : Portfolio} {pos : Position}
    (cp : List (String × ℚ)) (ds : String) (pct : ℚ) (r : Reason)
    (s : Decision) (h : lookupPos t q.positions = some pos) :
    lookupPos t (tierBuy cp ds pct r q s).positions = some pos := by
  unfold tierBuy
  cases hp : cp.lookup s.ticker with
  | none => exact h
  | some price =>
    by_cases hh : isHeld q s.ticker
    · simp only [hh, if_true]
      exact h
    · simp only [hh, if_false]
      exact buy_preserves_some h s.ticker price pct ds s.stop_loss
        s.take_profit r

theorem tierBuy_preserve_ne {t : String} (cp : List (String × ℚ))
    (ds : String) (pct : ℚ) (r : Reason) (q : Portfolio) (s : Decision)
    (hne : s.ticker ≠ t) :
    lookupPos t (tierBuy cp ds pct r q s).positions
      = lookupPos t q.positions := by
  unfold tierBuy
  cases hp : cp.lookup s.ticker with
  | none => rfl
  | some price =>
    by_cases hh : isHeld q s.ticker
    · simp only [hh, if_true]
    · simp only [hh, if_false]
      exact buy_lookup_ne (fun hc => hne hc.symm) q price pct ds s.stop_loss
        s.take_profit r

theorem tierBuy_preserve_price_none {t : String} (cp : List (String × ℚ))
    (ds : String) (pct : ℚ) (r : Reason) (q : Portfolio) (s : Decision)
    (h : cp.lookup t = none) :
    lookupPos t (tierBuy cp ds pct r q s).positions
      = lookupPos t q.positions := by
  by_cases hst : s.ticker = t
  · unfold tierBuy
    rw [hst, h]
  · exact tierBuy_preserve_ne cp ds pct r q s hst

theorem tierBuy_trades_delta (cp : List (String × ℚ)) (ds : String)
    (pct : ℚ) (r : Reason) (q : Portfolio) (s : Decision) :
    ∃ Δ, (tierBuy cp ds pct r q s).trades = q.trades ++ Δ
      ∧ ∀ tr ∈ Δ, tr.ticker = s.ticker ∧ tr.action = .BUY
        ∧ tr.reason = r := by
  unfold tierBuy
  cases hp : cp.lookup s.ticker with
  | none =>
    exact ⟨[], (List.append_nil _).symm,
      fun tr htr => absurd htr (List.not_mem_nil tr)⟩
  | some price =>
    by_cases hh : isHeld q s.ticker
    · simp only [hh, if_true]
      exact ⟨[], (List.append_nil _).symm,
        fun tr htr => absurd htr (List.not_mem_nil tr)⟩
    · simp only [hh, if_false]
      exact buy_trades_delta q s.ticker price pct ds s.stop_loss
        s.take_profit r

/-- Generic invariant preservation over a left fold of portfolio steps. -/
theorem foldl_invariant {α : Type} {f : Portfolio → α → Portfolio}
    {I : Portfolio → Prop} :
    ∀ (ts : List α) (q : Portfolio),
    (∀ q a, a ∈ ts → I q → I (f q a)) → I q → I (ts.foldl f q)
  | [], _, _, hq => hq
  | a :: ts, q, hf, hq =>
    foldl_invariant ts (f q a)
      (fun q' a' ha' => hf q' a' (List.mem_cons_of_mem a ha'))
      (hf q a (List.mem_cons_self a ts) hq)

/-- Generic trade-log extension over a left fold: when every step only
appends trades satisfying `P`, so does the fold. -/
theorem foldl_trades_delta {α : Type} {f : Portfolio → α → Portfolio}
    {P : Trade → Prop} :
    ∀ (ts : List α) (q : Portfolio),
    (∀ q a, a ∈ ts → ∃ Δ, (f q a).trades = q.trades ++ Δ ∧ ∀ tr ∈ Δ, P tr) →
    ∃ Δ, (ts.foldl f q).trades = q.trades ++ Δ ∧ ∀ tr ∈ Δ, P tr
  | [], q, _ => ⟨[], (List.append_nil _).symm,
      fun tr htr => absurd htr (List.not_mem_nil tr)⟩
  | a :: ts, q, hf => by
    obtain ⟨Δ₁, h1, hP1⟩ := hf q a (List.mem_cons_self a ts)
    obtain ⟨Δ₂, h2, hP2⟩ := foldl_trades_delta ts (f q a)
      (fun q' a' ha' => hf q' a' (List.mem_cons_of_mem a ha'))
    refine ⟨Δ₁ ++ Δ₂, ?_, ?_⟩
    · rw [List.foldl_cons, h2, h1, List.append_assoc]
    · intro tr htr
      rcases List.mem_append.mp htr with h | h
      · exact hP1 tr h
      · exact hP2 tr h

/-- Generic firing argument: walking `ts`, the invariant `pre` is preserved
by every step on an element other than `a₀`, the step at `a₀` establishes
`I` from `pre`, and `I` is preserved by every step; then after the fold `I`
holds whenever `a₀ ∈ ts` and `pre` held initially. -/
theorem foldl_fires {α : Type} [DecidableEq α] {f : Portfolio → α → Portfolio}
    {J I : Portfolio → Prop} {a₀ : α} :
    ∀ (ts : List α) (q : Portfolio), a₀ ∈ ts →
    (∀ q a, a ∈ ts → a ≠ a₀ → J q → J (f q a)) →
    (∀ q, J q → I (f q a₀)) →
    (∀ q a, a ∈ ts → I q → I (f q a)) →
    J q → I (ts.foldl f q)
  | a :: ts, q, hmem, hpre, hfire, hI, hq => by
    by_cases ha : a = a₀
    · subst ha
      exact foldl_invariant ts (f q a)
        (fun q' a' ha' => hI q' a' (List.mem_cons_of_mem a ha'))
        (hfire q hq)
    · have hmem' : a₀ ∈ ts := by
        rcases List.mem_cons.mp hmem with h | h
        · exact absurd h.symm ha
        · exact h
      exact foldl_fires ts (f q a) hmem'
        (fun q' a' ha' => hpre q' a' (List.mem_cons_of_mem a ha'))
        hfire
        (fun q' a' ha' => hI q' a' (List.mem_cons_of_mem a ha'))
        (hpre q a (List.mem_cons_self a ts) ha hq)

theorem lookupPos_some_mem {t : String} {l : List (String × Position)}
    {pos : Position} (h : lookupPos t l = some pos) : t ∈ l.map Prod.fst := by
  by_contra hc
  rw [(lookupPos_eq_none_iff t l).mpr hc] at h
  cases h

theorem update_prices_trades (p : Portfolio) (prices : List (String × ℚ)) :
    (update_prices p prices).trades = p.trades := rfl

theorem apply_selic_positions (p : Portfolio) (ds : String) (r : ℚ) :
    (apply_selic_to_cash p ds r).positions = p.positions := rfl

theorem apply_selic_trades (p : Portfolio) (ds : String) (r : ℚ) :
    (apply_selic_to_cash p ds r).trades = p.trades := rfl

theorem updPos_fields (cp : List (String × ℚ)) (t : String) (pos : Position) :
    (updPos cp t pos).shares = pos.shares
    ∧ (updPos cp t pos).entryPrice = pos.entryPrice
    ∧ (updPos cp t pos).entryDate = pos.entryDate
    ∧ (updPos cp t pos).stopLoss = pos.stopLoss
    ∧ (updPos cp t pos).takeProfit = pos.takeProfit := by
  unfold updPos
  cases cp.lookup t <;> exact ⟨rfl, rfl, rfl, rfl, rfl⟩

theorem tierBuy_of_held (cp : List (String × ℚ)) (ds : String) (pct : ℚ)
    (r : Reason) (q : Portfolio) (s : Decision)
    (h : isHeld q s.ticker = true) : tierBuy cp ds pct r q s = q := by
  unfold tierBuy
  cases hp : cp.lookup s.ticker with
  | none => rfl
  | some price => simp [h]

theorem sellPhase_trades_delta (cp : List (String × ℚ)) (ds : String)
    (keep : List String) (q : Portfolio) :
    ∃ Δ, (sellPhase cp ds keep q).trades = q.trades ++ Δ
      ∧ ∀ tr ∈ Δ, tr.action = .SELL ∧ tr.reason = .NO_SIGNAL
        ∧ tr.ticker ∈ heldTickers q ∧ tr.ticker ∉ keep := by
  unfold sellPhase
  refine foldl_trades_delta _ _ (fun q' a ha => ?_)
  obtain ⟨Δ, hΔ, hP⟩ := liquidate_trades_delta cp ds q' a
  refine ⟨Δ, hΔ, fun tr htr => ?_⟩
  obtain ⟨h1, h2, h3⟩ := hP tr htr
  have ha' := List.mem_filter.mp ha
  refine ⟨h2, h3, ?_, ?_⟩
  · rw [h1]
    exact ha'.1
  · rw [h1]
    simpa using ha'.2

theorem buyPhase_trades_delta (cp : List (String × ℚ)) (ds : String)
    (signals : List Decision) (pool : Nat) (alloc totalCap : ℚ) (r : Reason)
    (q : Portfolio) :
    ∃ Δ, (buyPhase cp ds signals pool alloc totalCap r q).trades
        = q.trades ++ Δ
      ∧ ∀ tr ∈ Δ, tr.action = .BUY ∧ tr.reason = r
        ∧ tr.ticker ∈ (signals.take pool).map Decision.ticker := by
  unfold buyPhase
  refine foldl_trades_delta _ _ (fun q' s hs => ?_)
  obtain ⟨Δ, hΔ, hP⟩ := tierBuy_trades_delta cp ds _ r q' s
  refine ⟨Δ, hΔ, fun tr htr => ?_⟩
  obtain ⟨h1, h2, h3⟩ := hP tr htr
  refine ⟨h2, h3, ?_⟩
  rw [h1]
  exact List.mem_map_of_mem Decision.ticker hs

/-- Every trade emitted by a whole rebalance extends the trade log, and every
SELL among them is a NO_SIGNAL liquidation of a ticker that was held when the
rebalance began and that is outside the keep set. -/
theorem rebalance_trades_delta (pipeline : Pipeline) (univ : List String)
    (cp : List (String × ℚ)) (ds : String) (q : Portfolio) :
    ∃ Δ, (rebalance_portfolio pipeline univ cp ds q).trades = q.trades ++ Δ
      ∧ ∀ tr ∈ Δ, tr.action = .SELL →
        tr.ticker ∈ heldTickers q ∧ tr.reason = .NO_SIGNAL
          ∧ tr.ticker ∉ keep_tickers (buyTier pipeline univ ds)
              (holdTier pipeline univ ds) := by
  obtain ⟨Δ₁, h1, hP1⟩ := sellPhase_trades_delta cp ds
    (keep_tickers (buyTier pipeline univ ds) (holdTier pipeline univ ds))
    (apply_selic_to_cash (update_prices q cp) ds selicDaily)
  obtain ⟨Δ₂, h2, hP2⟩ := buyPhase_trades_delta cp ds
    (buyTier pipeline univ ds) 15
    (allocationFor (buyTier pipeline univ ds).length).1
    (totalValue (apply_selic_to_cash (update_prices q cp) ds selicDaily))
    .REBALANCE
    (sellPhase cp ds
      (keep_tickers (buyTier pipeline univ ds) (holdTier pipeline univ ds))
      (apply_selic_to_cash (update_prices q cp) ds selicDaily))
  obtain ⟨Δ₃, h3, hP3⟩ := buyPhase_trades_delta cp ds
    (holdTier pipeline univ ds) 20
    (allocationFor (buyTier pipeline univ ds).length).2.1
    (totalValue (apply_selic_to_cash (update_prices q cp) ds selicDaily))
    .HOLD_EXPOSURE
    (buyPhase cp ds (buyTier pipeline univ ds) 15
      (allocationFor (buyTier pipeline univ ds).length).1
      (totalValue (apply_selic_to_cash (update_prices q cp) ds selicDaily))
      .REBALANCE
      (sellPhase cp ds
        (keep_tickers (buyTier pipeline univ ds) (holdTier pipeline univ ds))
        (apply_selic_to_cash (update_prices q cp) ds selicDaily)))
  refine ⟨Δ₁ ++ (Δ₂ ++ Δ₃), ?_, ?_⟩
  · show (buyPhase cp ds (holdTier pipeline univ ds) 20
      (allocationFor (buyTier pipeline univ ds).length).2.1
      (totalValue (apply_selic_to_cash (update_prices q cp) ds selicDaily))
      .HOLD_EXPOSURE
      (buyPhase cp ds (buyTier pipeline univ ds) 15
        (allocationFor (buyTier pipeline univ ds).length).1
        (totalValue (apply_selic_to_cash (update_prices q cp) ds selicDaily))
        .REBALANCE
        (sellPhase cp ds
          (keep_tickers (buyTier pipeline univ ds)
            (holdTier pipeline univ ds))
          (apply_selic_to_cash (update_prices q cp) ds
            selicDaily)))).trades = q.trades ++ (Δ₁ ++ (Δ₂ ++ Δ₃))
    rw [h3, h2, h1, apply_selic_trades, update_prices_trades,
      List.append_assoc, List.append_assoc]
  · intro tr htr hsell
    rcases List.mem_append.mp htr with h | h
    · obtain ⟨_, hr, hmem, hkeep⟩ := hP1 tr h
      refine ⟨?_, hr, hkeep⟩
      rw [show heldTickers (apply_selic_to_cash (update_prices q cp) ds
        selicDaily) = heldTickers (update_prices q cp) from rfl,
        heldTickers_update_prices] at hmem
      exact hmem
    · rcases List.mem_append.mp h with h' | h'
      · cases ((hP2 tr h').1.symm.trans hsell)
      · cases ((hP3 tr h').1.symm.trans hsell)

theorem sellPhase_fires (cp : List (String × ℚ)) (ds : String)
    (keep : List String) (q : Portfolio) (t : String) (pos : Position)
    (pr : ℚ) (hl : lookupPos t q.positions = some pos) (hk : t ∉ keep)
    (hp : cp.lookup t = some pr) (hpr : 0 < pr) :
    lookupPos t (sellPhase cp ds keep q).positions = none
    ∧ ∃ tr ∈ (sellPhase cp ds keep q).trades,
        tr.ticker = t ∧ tr.action = .SELL ∧ tr.reason = .NO_SIGNAL := by
  have hmem : t ∈ (heldTickers q).filter (fun a => decide (a ∉ keep)) := by
    rw [List.mem_filter]
    exact ⟨lookupPos_some_mem hl, by simpa using hk⟩
  constructor
  · show lookupPos t (((heldTickers q).filter
      (fun a => decide (a ∉ keep))).foldl (liquidate cp ds) q).positions
      = none
    refine foldl_fires _ _ hmem
      (J := fun q' => lookupPos t q'.positions = some pos)
      (I := fun q' => lookupPos t q'.positions = none)
      (fun q' a _ hne hq => by
        show lookupPos t (liquidate cp ds q' a).positions = some pos
        rw [liquidate_preserve_ne (fun hc => hne hc.symm) cp ds q']
        exact hq)
      (fun q' hq => (liquidate_fires cp ds hq hp hpr).1)
      (fun q' a _ hq => liquidate_not_add cp ds q' a hq)
      hl
  · show ∃ tr ∈ (((heldTickers q).filter
      (fun a => decide (a ∉ keep))).foldl (liquidate cp ds) q).trades,
      tr.ticker = t ∧ tr.action = .SELL ∧ tr.reason = .NO_SIGNAL
    refine foldl_fires _ _ hmem
      (J := fun q' => lookupPos t q'.positions = some pos)
      (I := fun q' => ∃ tr ∈ q'.trades,
        tr.ticker = t ∧ tr.action = .SELL ∧ tr.reason = .NO_SIGNAL)
      (fun q' a _ hne hq => by
        show lookupPos t (liquidate cp ds q' a).positions = some pos
        rw [liquidate_preserve_ne (fun hc => hne hc.symm) cp ds q']
        exact hq)
      (fun q' hq => by
        obtain ⟨_, tr, htr, ht1, ht2, ht3⟩ := liquidate_fires cp ds hq hp hpr
        refine ⟨tr, ?_, ht1, ht2, ht3⟩
        rw [htr]
        exact List.mem_append_right _ (List.mem_singleton_self tr))
      (fun q' a _ hq => by
        obtain ⟨tr, htr, ht1, ht2, ht3⟩ := hq
        obtain ⟨Δ, hΔ, _⟩ := liquidate_trades_delta cp ds q' a
        refine ⟨tr, ?_, ht1, ht2, ht3⟩
        rw [hΔ]
        exact List.mem_append_left Δ htr)
      hl

theorem sellPhase_preserve_price_none (cp : List (String × ℚ)) (ds : String)
    (keep : List String) (q : Portfolio) (t : String)
    (h : cp.lookup t = none) :
    lookupPos t (sellPhase cp ds keep q).positions
      = lookupPos t q.positions := by
  show lookupPos t (((heldTickers q).filter
    (fun a => decide (a ∉ keep))).foldl (liquidate cp ds) q).positions = _
  refine foldl_invariant
    (I := fun q' => lookupPos t q'.positions = lookupPos t q.positions)
    _ _ (fun q' a _ hq => ?_) rfl
  show lookupPos t (liquidate cp ds q' a).positions = lookupPos t q.positions
  rw [liquidate_preserve_price_none cp ds q' a h]
  exact hq

theorem sellPhase_preserve_of_keep (cp : List (String × ℚ)) (ds : String)
    (keep : List String) (q : Portfolio) (t : String) (pos : Position)
    (hk : t ∈ keep) (h : lookupPos t q.positions = some pos) :
    lookupPos t (sellPhase cp ds keep q).positions = some pos := by
  show lookupPos t (((heldTickers q).filter
    (fun a => decide (a ∉ keep))).foldl (liquidate cp ds) q).positions = _
  refine foldl_invariant
    (I := fun q' => lookupPos t q'.positions = some pos)
    _ _ (fun q' a ha hq => ?_) h
  have hane : a ≠ t := by
    have h2 := (List.mem_filter.mp ha).2
    rw [decide_eq_true_eq] at h2
    exact fun hc => h2 (hc ▸ hk)
  show lookupPos t (liquidate cp ds q' a).positions = some pos
  rw [liquidate_preserve_ne (fun hc => hane hc.symm) cp ds q']
  exact hq

theorem buyPhase_preserve_of_ne (cp : List (String × ℚ)) (ds : String)
    (signals : List Decision) (pool : Nat) (alloc totalCap : ℚ) (r : Reason)
    (q : Portfolio) (t : String)
    (hne : ∀ s ∈ signals.take pool, s.ticker ≠ t) :
    lookupPos t (buyPhase cp ds signals pool alloc totalCap r q).positions
      = lookupPos t q.positions := by
  simp only [buyPhase]
  refine foldl_invariant
    (I := fun q' => lookupPos t q'.positions = lookupPos t q.positions)
    _ _ (fun q' s hs hq => ?_) rfl
  show lookupPos t (tierBuy cp ds _ r q' s).positions = lookupPos t q.positions
  rw [tierBuy_preserve_ne cp ds _ r q' s (hne s hs)]
  exact hq

theorem buyPhase_preserve_price_none (cp : List (String × ℚ)) (ds : String)
    (signals : List Decision) (pool : Nat) (alloc totalCap : ℚ) (r : Reason)
    (q : Portfolio) (t : String) (h : cp.lookup t = none) :
    lookupPos t (buyPhase cp ds signals pool alloc totalCap r q).positions
      = lookupPos t q.positions := by
  simp only [buyPhase]
  refine foldl_invariant
    (I := fun q' => lookupPos t q'.positions = lookupPos t q.positions)
    _ _ (fun q' s _ hq => ?_) rfl
  show lookupPos t (tierBuy cp ds _ r q' s).positions = lookupPos t q.positions
  rw [tierBuy_preserve_price_none cp ds _ r q' s h]
  exact hq

theorem buyPhase_held_frame (cp : List (String × ℚ)) (ds : String)
    (signals : List Decision) (pool : Nat) (alloc totalCap : ℚ) (r : Reason)
    (q : Portfolio) (t : String) (pos : Position)
    (h : lookupPos t q.positions = some pos) :
    lookupPos t (buyPhase cp ds signals pool alloc totalCap r q).positions
      = some pos
    ∧ ∃ Δ, (buyPhase cp ds signals pool alloc totalCap r q).trades
        = q.trades ++ Δ ∧ ∀ tr ∈ Δ, tr.ticker ≠ t := by
  simp only [buyPhase]
  refine foldl_invariant
    (I := fun q' => lookupPos t q'.positions = some pos
      ∧ ∃ Δ, q'.trades = q.trades ++ Δ ∧ ∀ tr ∈ Δ, tr.ticker ≠ t)
    _ _
    (fun q' s _ hq => ?_)
    ⟨h, [], (List.append_nil _).symm,
      fun tr htr => absurd htr (List.not_mem_nil tr)⟩
  obtain ⟨hq1, Δ₀, hΔ₀, hP₀⟩ := hq
  by_cases hst : s.ticker = t
  · have hh : isHeld q' s.ticker = true := by
      rw [hst]
      simp [isHeld, hq1]
    show _ ∧ _
    rw [tierBuy_of_held cp ds _ r q' s hh]
    exact ⟨hq1, Δ₀, hΔ₀, hP₀⟩
  · refine ⟨tierBuy_preserve_some cp ds _ r s hq1, ?_⟩
    obtain ⟨Δ', hΔ', hP'⟩ := tierBuy_trades_delta cp ds _ r q' s
    refine ⟨Δ₀ ++ Δ', ?_, ?_⟩
    · rw [hΔ', hΔ₀, List.append_assoc]
    · intro tr htr
      rcases List.mem_append.mp htr with hm | hm
      · exact hP₀ tr hm
      · rw [(hP' tr hm).1]
        exact hst

/-! ## Claims -/

/-- C3.  The rebalance-date sets, from the price table's date index:
weekly = exactly the dates whose weekday is Monday (pandas weekday 0);
monthly = exactly the dates whose calendar month differs from the previous
trading day's month; quarterly = exactly the dates whose (year, quarter)
pair, quarter = `(month − 1) div 3`, differs from the previous trading day's
pair.  The first trading day, having no previous trading day, counts as
differing in the monthly and quarterly cases. -/
theorem rebalance_dates_characterized (l : List Date) :
    (∃ wl, get_rebalance_dates "weekly" l = .ok wl ∧
      ∀ d, d ∈ wl ↔ d ∈ l ∧ d.weekday = 0)
    ∧ get_rebalance_dates "monthly" l = .ok (specMonthly l)
    ∧ get_rebalance_dates "quarterly" l = .ok (specQuarterly l) := by
  refine ⟨⟨l.filter (fun d => decide (d.weekday = 0)), rfl, ?_⟩, ?_, ?_⟩
  · intro d
    simp [List.mem_filter]
  · show Except.ok (monthlyFirsts none l) = Except.ok (specMonthly l)
    cases l with
    | nil => rfl
    | cons d rest =>
      simp only [monthlyFirsts, specMonthly, ne_eq, reduceCtorEq,
        not_false_eq_true, if_true]
      rw [monthlyFirsts_eq_aux d rest]
  · show Except.ok (quarterlyFirsts none l) = Except.ok (specQuarterly l)
    cases l with
    | nil => rfl
    | cons d rest =>
      simp only [quarterlyFirsts, specQuarterly, ne_eq, reduceCtorEq,
        not_false_eq_true, if_true]
      rw [show ((d.year, (d.month - 1) / 3) : Nat × Nat) = yearQuarter d from
        rfl, quarterlyFirsts_eq_aux d rest]

/-- C4.  The allocation triple (buy, hold, cash), as fractions of total
capital, is the step function of the BUY-signal count: `≥ 15 → (90%, 5%, 5%)`,
`≥ 10 → (80%, 10%, 10%)`, `≥ 5 → (60%, 25%, 15%)`, otherwise
`(40%, 45%, 15%)`. -/
theorem allocation_step_function (n : Nat) :
    (15 ≤ n → allocationFor n = (90/100, 5/100, 5/100))
    ∧ (10 ≤ n → n < 15 → allocationFor n = (80/100, 10/100, 10/100))
    ∧ (5 ≤ n → n < 10 → allocationFor n = (60/100, 25/100, 15/100))
    ∧ (n < 5 → allocationFor n = (40/100, 45/100, 15/100)) := by
  refine ⟨fun h => ?_, fun h h' => ?_, fun h h' => ?_, fun h => ?_⟩
  · rw [allocationFor, if_pos h]
    norm_num
  · rw [allocationFor, if_neg (by omega), if_pos h]
    norm_num
  · rw [allocationFor, if_neg (by omega), if_neg (by omega), if_pos h]
    norm_num
  · rw [allocationFor, if_neg (by omega), if_neg (by omega), if_neg (by omega)]
    norm_num

/-- Witness for C4 at concrete signal counts 20, 12, 7 and 3. -/
theorem allocation_step_function_witness :
    allocationFor 20 = (90/100, 5/100, 5/100)
    ∧ allocationFor 12 = (80/100, 10/100, 10/100)
    ∧ allocationFor 7 = (60/100, 25/100, 15/100)
    ∧ allocationFor 3 = (40/100, 45/100, 15/100) :=
  ⟨(allocation_step_function 20).1 (by norm_num),
   (allocation_step_function 12).2.1 (by norm_num) (by norm_num),
   (allocation_step_function 7).2.2.1 (by norm_num) (by norm_num),
   (allocation_step_function 3).2.2.2 (by norm_num)⟩

/-- C6.  The tier ranking used on every rebalance (`rank_signals`, applied to
both the BUY and the HOLD tier) sorts in descending order of
`score × confidence` with a missing score or confidence counting as 0, is a
permutation of its input, and is stable: for every key value, the elements
carrying that key appear in their original encounter order (their filtered
subsequence is unchanged). -/
theorem tier_ranking_stable_desc (l : List Decision) :
    (rank_signals l).Pairwise (fun a b =>
      b.analyst_score.getD 0 * b.confidence.getD 0
        ≤ a.analyst_score.getD 0 * a.confidence.getD 0)
    ∧ List.Perm (rank_signals l) l
    ∧ ∀ k : ℚ, (rank_signals l).filter (fun d => decide (signalKey d = k))
        = l.filter (fun d => decide (signalKey d = k)) := by
  refine ⟨?_, ?_, fun k => ?_⟩
  · show (rank_signals l).Pairwise (fun a b => signalKey b ≤ signalKey a)
    induction l with
    | nil => simp [rank_signals]
    | cons x xs ih => exact pairwise_insertDesc ih
  · induction l with
    | nil => exact List.Perm.refl _
    | cons x xs ih =>
      exact (insertDesc_perm x (rank_signals xs)).trans (ih.cons x)
  · induction l with
    | nil => rfl
    | cons x xs ih =>
      by_cases hx : signalKey x = k
      · rw [rank_signals, filter_insertDesc_of_key hx, ih, List.filter_cons,
          if_pos (by simp [hx])]
      · rw [rank_signals, filter_insertDesc_of_ne hx, ih, List.filter_cons,
          if_neg (by simp [hx])]

/-- A Monday of the trading calendar (weekday 0), hence a weekly rebalance
date. -/
def mondayJan8 : Date := ⟨2024, 1, 8, 0⟩

/-- The following Tuesday (weekday 1), not a weekly rebalance date. -/
def tuesdayJan9 : Date := ⟨2024, 1, 9, 1⟩

/-- A pipeline whose every call raises (is caught per ticker, so the day
produces no signals). -/
def noPipeline : Pipeline := fun _ _ => .error "pipeline unavailable"

/-- A one-day price table whose single day is a Monday. -/
def tableMonday : PriceTable := [(mondayJan8, [("AAA", 10)])]

/-- A one-day price table whose single day is a Tuesday. -/
def tableTuesday : PriceTable := [(tuesdayJan9, [("AAA", 10)])]

/-- C1 (code-bug evaluation).  The claim says the SELIC accrual
`cash *= (1 + dailyRate)` runs exactly once per simulated day regardless of
rebalance dates; the code applies it a second time inside
`rebalance_portfolio`.  With no trades in play: on a one-Monday calendar
under weekly rebalancing the final cash is
`initial × (1 + rate)²` (two accruals), while on a one-Tuesday calendar it is
`initial × (1 + rate)` (one accrual), and the two differ. -/
theorem selic_double_accrual_on_rebalance_day :
    (engineRun 1000000 0.001 0.02 0.10 "weekly" (some ["AAA"]) []
        (fun _ => tableMonday) noPipeline).map Portfolio.cash
      = .ok (1000000 * (1 + selicDaily) * (1 + selicDaily))
    ∧ (engineRun 1000000 0.001 0.02 0.10 "weekly" (some ["AAA"]) []
        (fun _ => tableTuesday) noPipeline).map Portfolio.cash
      = .ok (1000000 * (1 + selicDaily))
    ∧ (1000000 * (1 + selicDaily) * (1 + selicDaily) : ℚ)
        ≠ 1000000 * (1 + selicDaily) := by
  refine ⟨?_, ?_, by norm_num [selicDaily]⟩ <;>
  norm_num [engineRun, prepare_data, get_rebalance_dates, runDay, update_prices,
    apply_selic_to_cash, check_stops, heldTickers, sortAsc, record_state,
    rebalance_portfolio, decisionsFor, run_agents_for_ticker, noPipeline,
    tableMonday, tableTuesday, mondayJan8, tuesdayJan9, sellPhase, buyPhase,
    buyTier, holdTier, tierBuy, liquidate, stopStep, rank_signals,
    keep_tickers, allocationFor, selicDaily, initPortfolio,
    totalValue, positionsValue, Except.map]

/-- C8.  Configuration errors are fatal and raised before the daily loop: a
derived universe with fewer than 10 tickers, an empty downloaded price table,
and an unknown rebalance frequency each make `run` abort with an error — the
result carries no portfolio, so no simulation day is processed. -/
theorem config_errors_abort_before_loop (cap comm mn mx : ℚ) (freq : String)
    (getU : List String) (getP : List String → PriceTable)
    (pipeline : Pipeline) :
    (getU.length < 10 →
      engineRun cap comm mn mx freq none getU getP pipeline
        = .error (.universeTooSmall getU.length))
    ∧ (∀ u, getP u = [] →
      engineRun cap comm mn mx freq (some u) getU getP pipeline
        = .error .emptyPriceData)
    ∧ (∀ u, getP u ≠ [] → freq ≠ "weekly" → freq ≠ "monthly" →
      freq ≠ "quarterly" →
      engineRun cap comm mn mx freq (some u) getU getP pipeline
        = .error (.invalidFrequency freq)) := by
  refine ⟨fun h => ?_, fun u h => ?_, fun u h hw hm hq => ?_⟩
  · simp [engineRun, prepare_data, if_pos h]
  · simp [engineRun, prepare_data, h]
  · have h' : (getP u).isEmpty = false := by
      simpa [List.isEmpty_iff] using h
    simp [engineRun, prepare_data, get_rebalance_dates, h', hw, hm, hq]

/-- Witness for C8: each configuration error at a concrete configuration. -/
theorem config_errors_abort_before_loop_witness :
    engineRun 100 0.001 0.02 0.10 "weekly" none ["AAA"] (fun _ => [])
        noPipeline = .error (.universeTooSmall 1)
    ∧ engineRun 100 0.001 0.02 0.10 "weekly" (some ["AAA"]) []
        (fun _ => []) noPipeline = .error .emptyPriceData
    ∧ engineRun 100 0.001 0.02 0.10 "daily" (some ["AAA"]) []
        (fun _ => tableMonday) noPipeline = .error (.invalidFrequency "daily") :=
  ⟨(config_errors_abort_before_loop 100 0.001 0.02 0.10 "weekly" ["AAA"]
      (fun _ => []) noPipeline).1 (by norm_num),
   (config_errors_abort_before_loop 100 0.001 0.02 0.10 "weekly" []
      (fun _ => []) noPipeline).2.1 ["AAA"] rfl,
   (config_errors_abort_before_loop 100 0.001 0.02 0.10 "daily" []
      (fun _ => tableMonday) noPipeline).2.2 ["AAA"]
      (by simp [tableMonday]) (by decide) (by decide) (by decide)⟩

/-- Two pipelines that agree away from one ticker give the same result from
`run_agents_for_ticker` on every other ticker. -/
theorem run_agents_congr (pipeline pipeline' : Pipeline) (s as_of : String)
    (h : pipeline' s as_of = pipeline s as_of) :
    run_agents_for_ticker pipeline' s as_of
      = run_agents_for_ticker pipeline s as_of := by
  unfold run_agents_for_ticker
  rw [h]

/-- C9.  A pipeline exception for a ticker is caught inside the per-ticker
call, which returns `none`; the day's decision list is then exactly the list
obtained by analysing the universe without that ticker (other tickers are
unaffected); and whether `run` succeeds never depends on the pipeline — a
signal failure cannot abort the run. -/
theorem signal_failure_is_isolated (pipeline pipeline' : Pipeline)
    (t as_of : String) (univ : List String) (e : String) :
    (pipeline' t as_of = .error e →
      run_agents_for_ticker pipeline' t as_of = none)
    ∧ (pipeline' t as_of = .error e →
      (∀ s, s ≠ t → pipeline' s as_of = pipeline s as_of) →
      decisionsFor pipeline' univ as_of
        = decisionsFor pipeline (univ.filter (fun s => decide (s ≠ t))) as_of)
    ∧ (∀ (cap comm mn mx : ℚ) (freq : String) (uOpt : Option (List String))
        (getU : List String) (getP : List String → PriceTable),
      (engineRun cap comm mn mx freq uOpt getU getP pipeline).isOk
        = (engineRun cap comm mn mx freq uOpt getU getP pipeline').isOk) := by
  refine ⟨fun h => ?_, fun h hagree => ?_, fun cap comm mn mx freq uOpt getU getP => ?_⟩
  · unfold run_agents_for_ticker
    rw [h]
  · induction univ with
    | nil => rfl
    | cons s rest ih =>
      by_cases hs : s = t
      · subst hs
        have hnone : run_agents_for_ticker pipeline' s as_of = none := by
          unfold run_agents_for_ticker
          rw [h]
        simp [decisionsFor, List.filterMap_cons, hnone] at ih ⊢
        exact ih
      · have hcongr := run_agents_congr pipeline pipeline' s as_of (hagree s hs)
        simp only [decisionsFor, List.filterMap_cons, List.filter_cons,
          hs, ne_eq, not_false_eq_true, decide_eq_true_eq, if_true,
          decide_not] at ih ⊢
        rw [hcongr]
        cases hr : run_agents_for_ticker pipeline s as_of <;>
          simp [hr, decisionsFor] at ih ⊢ <;> exact ih
  · unfold engineRun
    cases hp : prepare_data uOpt getU getP with
    | error e => rfl
    | ok pr =>
      obtain ⟨uT, pd⟩ := pr
      cases hr : get_rebalance_dates freq (pd.map Prod.fst) with
      | error e => simp [hr, Except.isOk, Except.toBool]
      | ok rd => simp [hr, Except.isOk, Except.toBool]

/-- A senior decision used by the concrete pipelines below. -/
def okSenior : SeniorDecision :=
  { final_verdict := .BUY, position_size := 5, confidence := some 0.8,
    stop_loss := 9, take_profit := 12 }

/-- A pipeline that completes with a BUY decision for every ticker. -/
def okPipeline : Pipeline := fun _ _ =>
  .ok { pipeline_status := "completed", senior_decision := some okSenior,
        analyst_report := some { score := 70 } }

/-- A pipeline like `okPipeline` except that it raises on ticker `"BBB"`. -/
def failBBBPipeline : Pipeline := fun t as_of =>
  if t = "BBB" then .error "analysis failed" else okPipeline t as_of

/-- Witness for C9 at a concrete two-ticker universe where analysis of
`"BBB"` raises. -/
theorem signal_failure_is_isolated_witness :
    run_agents_for_ticker failBBBPipeline "BBB" "2024-1-8" = none
    ∧ decisionsFor failBBBPipeline ["AAA", "BBB"] "2024-1-8"
      = decisionsFor okPipeline
          ((["AAA", "BBB"]).filter (fun s => decide (s ≠ "BBB"))) "2024-1-8"
    ∧ (engineRun 100 0.001 0.02 0.10 "weekly" (some ["AAA", "BBB"]) []
        (fun _ => tableMonday) okPipeline).isOk
      = (engineRun 100 0.001 0.02 0.10 "weekly" (some ["AAA", "BBB"]) []
        (fun _ => tableMonday) failBBBPipeline).isOk :=
  ⟨(signal_failure_is_isolated okPipeline failBBBPipeline "BBB" "2024-1-8"
      ["AAA", "BBB"] "analysis failed").1 rfl,
   (signal_failure_is_isolated okPipeline failBBBPipeline "BBB" "2024-1-8"
      ["AAA", "BBB"] "analysis failed").2.1 rfl
      (fun s hs => by simp [failBBBPipeline, hs]),
   (signal_failure_is_isolated okPipeline failBBBPipeline "BBB" "2024-1-8"
      ["AAA", "BBB"] "analysis failed").2.2 100 0.001 0.02 0.10 "weekly"
      (some ["AAA", "BBB"]) [] (fun _ => tableMonday)⟩

/-- C10 counterexample.  The claim says an explicit `universe_tickers` list is
accepted at any length — including empty — without raising a configuration
error; but with an empty explicit list `get_price_data` necessarily returns
the empty table (no columns are ever added), so `prepare_data` raises the
empty-price-table configuration error. -/
theorem explicit_empty_universe_still_errors :
    prepare_data (some []) [] (get_price_data (fun _ => none))
      = .error .emptyPriceData := rfl

/-- C10 (amended).  The minimum-universe-size check runs only when no
universe is supplied: with an explicit list, `prepare_data` can never raise
the universe-too-small error, and any explicit list whose downloaded price
table is nonempty — in particular one with fewer than 10 tickers — is
accepted; but an empty explicit list yields an empty price table (for every
download oracle) and hence the empty-price-table error. -/
theorem explicit_universe_skips_size_check (u getU : List String)
    (getP : List String → PriceTable) :
    (∀ n, prepare_data (some u) getU getP ≠ .error (.universeTooSmall n))
    ∧ (getP u ≠ [] → prepare_data (some u) getU getP = .ok (u, getP u))
    ∧ (∀ dl, get_price_data dl [] = []) := by
  refine ⟨fun n => ?_, fun h => ?_, fun dl => rfl⟩
  · unfold prepare_data
    cases hP : (getP u).isEmpty <;> simp [hP]
  · have h' : (getP u).isEmpty = false := by
      simpa [List.isEmpty_iff] using h
    simp [prepare_data, h']

/-- Witness for C10 (amended): a three-ticker explicit universe with a
nonempty table is accepted; the empty explicit list yields the empty table. -/
theorem explicit_universe_skips_size_check_witness :
    (∀ n, prepare_data (some ["AAA", "BBB", "CCC"]) [] (fun _ => tableMonday)
      ≠ .error (.universeTooSmall n))
    ∧ prepare_data (some ["AAA", "BBB", "CCC"]) [] (fun _ => tableMonday)
      = .ok (["AAA", "BBB", "CCC"], tableMonday)
    ∧ get_price_data (fun _ => none) [] = [] :=
  ⟨(explicit_universe_skips_size_check ["AAA", "BBB", "CCC"] []
      (fun _ => tableMonday)).1,
   (explicit_universe_skips_size_check ["AAA", "BBB", "CCC"] []
      (fun _ => tableMonday)).2.1 (by simp [tableMonday]),
   (explicit_universe_skips_size_check ["AAA", "BBB", "CCC"] []
      (fun _ => tableMonday)).2.2 (fun _ => none)⟩

/-- C2.  On a rebalance day the driver runs, in order: price update, SELIC
accrual, stop check, rebalancing strategy, snapshot.  A position whose
updated price triggers its stop (`0 < price ≤ stopLoss`) is sold with reason
STOP_LOSS by the stop check, is no longer held in the state handed to the
strategy (so it cannot be in the strategy's `current_tickers` when the keep
set is applied), and the strategy emits no further SELL trade for it that
day. -/
theorem stop_exit_visible_to_rebalance (pipeline : Pipeline)
    (univ : List String) (rebalDates : List Date) (p : Portfolio) (d : Date)
    (row : List (String × ℚ)) (t : String) (pos : Position)
    (hreb : d ∈ rebalDates)
    (hpos : lookupPos t (update_prices p row).positions = some pos)
    (htrig : pos.currentPrice ≤ pos.stopLoss)
    (hpr : 0 < pos.currentPrice) :
    runDay pipeline univ rebalDates p (d, row)
      = record_state (rebalance_portfolio pipeline univ row d.fmt
          (check_stops (apply_selic_to_cash (update_prices p row) d.fmt
            selicDaily) d.fmt)) d.fmt
    ∧ lookupPos t (check_stops (apply_selic_to_cash (update_prices p row)
        d.fmt selicDaily) d.fmt).positions = none
    ∧ (∃ tr ∈ (check_stops (apply_selic_to_cash (update_prices p row) d.fmt
          selicDaily) d.fmt).trades,
        tr.ticker = t ∧ tr.action = .SELL ∧ tr.reason = .STOP_LOSS)
    ∧ ∃ Δ, (rebalance_portfolio pipeline univ row d.fmt
          (check_stops (apply_selic_to_cash (update_prices p row) d.fmt
            selicDaily) d.fmt)).trades
        = (check_stops (apply_selic_to_cash (update_prices p row) d.fmt
            selicDaily) d.fmt).trades ++ Δ
      ∧ ∀ tr ∈ Δ, tr.action = .SELL → tr.ticker ≠ t := by
  have hmem : t ∈ sortAsc (heldTickers (apply_selic_to_cash
      (update_prices p row) d.fmt selicDaily)) :=
    mem_sortAsc.mpr (lookupPos_some_mem hpos)
  have h2 : lookupPos t (check_stops (apply_selic_to_cash
      (update_prices p row) d.fmt selicDaily) d.fmt).positions = none := by
    unfold check_stops
    refine foldl_fires _ _ hmem
      (J := fun q => lookupPos t q.positions = some pos)
      (I := fun q => lookupPos t q.positions = none)
      (fun q a _ hne hq => by
        show lookupPos t (stopStep d.fmt q a).positions = some pos
        rw [stopStep_preserve_ne (fun hc => hne hc.symm) d.fmt q]
        exact hq)
      (fun q hq => (stopStep_fires d.fmt hq htrig hpr).1)
      (fun q a _ hq => stopStep_not_add d.fmt q a hq)
      hpos
  have h3 : ∃ tr ∈ (check_stops (apply_selic_to_cash (update_prices p row)
      d.fmt selicDaily) d.fmt).trades,
      tr.ticker = t ∧ tr.action = .SELL ∧ tr.reason = .STOP_LOSS := by
    unfold check_stops
    refine foldl_fires _ _ hmem
      (J := fun q => lookupPos t q.positions = some pos)
      (I := fun q => ∃ tr ∈ q.trades,
        tr.ticker = t ∧ tr.action = .SELL ∧ tr.reason = .STOP_LOSS)
      (fun q a _ hne hq => by
        show lookupPos t (stopStep d.fmt q a).positions = some pos
        rw [stopStep_preserve_ne (fun hc => hne hc.symm) d.fmt q]
        exact hq)
      (fun q hq => by
        obtain ⟨_, tr, htr, ht1, ht2, ht3⟩ := stopStep_fires d.fmt hq htrig hpr
        refine ⟨tr, ?_, ht1, ht2, ht3⟩
        rw [htr]
        exact List.mem_append_right _ (List.mem_singleton_self tr))
      (fun q a _ hq => by
        obtain ⟨tr, htr, ht1, ht2, ht3⟩ := hq
        obtain ⟨Δ, hΔ⟩ := stopStep_trades_delta d.fmt q a
        refine ⟨tr, ?_, ht1, ht2, ht3⟩
        rw [hΔ]
        exact List.mem_append_left Δ htr)
      hpos
  refine ⟨by simp only [runDay, hreb, if_true], h2, h3, ?_⟩
  obtain ⟨Δ, hΔ, hP⟩ := rebalance_trades_delta pipeline univ row d.fmt
    (check_stops (apply_selic_to_cash (update_prices p row) d.fmt selicDaily)
      d.fmt)
  refine ⟨Δ, hΔ, fun tr htr hsell hc => ?_⟩
  have hmem2 := (hP tr htr hsell).1
  rw [hc] at hmem2
  exact (lookupPos_eq_none_iff t _).mp h2 hmem2

/-- C5.  On a rebalance, the keep set is `keep_tickers` of the ranked tiers
(top 15 BUY tickers together with top 20 HOLD tickers); every currently held
ticker outside it with a price in the day's row (necessarily positive in a
real table) is sold with reason NO_SIGNAL and is no longer held afterwards,
while a held ticker missing from the day's price row is skipped for that
operation — its position entry is left exactly as it was — with no effect on
the other tickers (the conclusions hold for every such ticker
independently). -/
theorem no_signal_liquidation (pipeline : Pipeline) (univ : List String)
    (cp : List (String × ℚ)) (ds : String) (p : Portfolio) (t : String)
    (hkeep : t ∉ keep_tickers (buyTier pipeline univ ds)
      (holdTier pipeline univ ds)) :
    (∀ pos pr, lookupPos t p.positions = some pos → cp.lookup t = some pr →
      0 < pr →
      lookupPos t (rebalance_portfolio pipeline univ cp ds p).positions = none
      ∧ ∃ tr ∈ (rebalance_portfolio pipeline univ cp ds p).trades,
          tr.ticker = t ∧ tr.action = .SELL ∧ tr.reason = .NO_SIGNAL)
    ∧ (cp.lookup t = none →
      lookupPos t (rebalance_portfolio pipeline univ cp ds p).positions
        = lookupPos t p.positions) := by
  have hne15 : ∀ s ∈ (buyTier pipeline univ ds).take 15, s.ticker ≠ t := by
    intro s hs hc
    exact hkeep (List.mem_append_left _
      (hc ▸ List.mem_map_of_mem Decision.ticker hs))
  have hne20 : ∀ s ∈ (holdTier pipeline univ ds).take 20, s.ticker ≠ t := by
    intro s hs hc
    exact hkeep (List.mem_append_right _
      (hc ▸ List.mem_map_of_mem Decision.ticker hs))
  constructor
  · intro pos pr hl hp hpr
    have hl4 : lookupPos t (apply_selic_to_cash (update_prices p cp) ds
        selicDaily).positions = some (updPos cp t pos) := by
      show lookupPos t (update_prices p cp).positions = _
      rw [lookupPos_update_prices, hl]
      rfl
    have hsp := sellPhase_fires cp ds
      (keep_tickers (buyTier pipeline univ ds) (holdTier pipeline univ ds))
      (apply_selic_to_cash (update_prices p cp) ds selicDaily)
      t (updPos cp t pos) pr hl4 hkeep hp hpr
    constructor
    · show lookupPos t (buyPhase cp ds (holdTier pipeline univ ds) 20
        (allocationFor (buyTier pipeline univ ds).length).2.1
        (totalValue (apply_selic_to_cash (update_prices p cp) ds selicDaily))
        .HOLD_EXPOSURE
        (buyPhase cp ds (buyTier pipeline univ ds) 15
          (allocationFor (buyTier pipeline univ ds).length).1
          (totalValue (apply_selic_to_cash (update_prices p cp) ds
            selicDaily))
          .REBALANCE
          (sellPhase cp ds
            (keep_tickers (buyTier pipeline univ ds)
              (holdTier pipeline univ ds))
            (apply_selic_to_cash (update_prices p cp) ds
              selicDaily)))).positions = none
      rw [buyPhase_preserve_of_ne _ _ _ _ _ _ _ _ _ hne20,
        buyPhase_preserve_of_ne _ _ _ _ _ _ _ _ _ hne15]
      exact hsp.1
    · obtain ⟨tr, htr, h1, h2, h3⟩ := hsp.2
      obtain ⟨Δ₂, hΔ₂, _⟩ := buyPhase_trades_delta cp ds
        (buyTier pipeline univ ds) 15
        (allocationFor (buyTier pipeline univ ds).length).1
        (totalValue (apply_selic_to_cash (update_prices p cp) ds selicDaily))
        .REBALANCE
        (sellPhase cp ds
          (keep_tickers (buyTier pipeline univ ds)
            (holdTier pipeline univ ds))
          (apply_selic_to_cash (update_prices p cp) ds selicDaily))
      obtain ⟨Δ₃, hΔ₃, _⟩ := buyPhase_trades_delta cp ds
        (holdTier pipeline univ ds) 20
        (allocationFor (buyTier pipeline univ ds).length).2.1
        (totalValue (apply_selic_to_cash (update_prices p cp) ds selicDaily))
        .HOLD_EXPOSURE
        (buyPhase cp ds (buyTier pipeline univ ds) 15
          (allocationFor (buyTier pipeline univ ds).length).1
          (totalValue (apply_selic_to_cash (update_prices p cp) ds
            selicDaily))
          .REBALANCE
          (sellPhase cp ds
            (keep_tickers (buyTier pipeline univ ds)
              (holdTier pipeline univ ds))
            (apply_selic_to_cash (update_prices p cp) ds selicDaily)))
      refine ⟨tr, ?_, h1, h2, h3⟩
      show tr ∈ (buyPhase cp ds (holdTier pipeline univ ds) 20
        (allocationFor (buyTier pipeline univ ds).length).2.1
        (totalValue (apply_selic_to_cash (update_prices p cp) ds selicDaily))
        .HOLD_EXPOSURE
        (buyPhase cp ds (buyTier pipeline univ ds) 15
          (allocationFor (buyTier pipeline univ ds).length).1
          (totalValue (apply_selic_to_cash (update_prices p cp) ds
            selicDaily))
          .REBALANCE
          (sellPhase cp ds
            (keep_tickers (buyTier pipeline univ ds)
              (holdTier pipeline univ ds))
            (apply_selic_to_cash (update_prices p cp) ds
              selicDaily)))).trades
      rw [hΔ₃, hΔ₂]
      exact List.mem_append_left _ (List.mem_append_left _ htr)
  · intro hB
    have h1 : lookupPos t (apply_selic_to_cash (update_prices p cp) ds
        selicDaily).positions = lookupPos t p.positions := by
      show lookupPos t (update_prices p cp).positions = _
      rw [lookupPos_update_prices]
      cases lookupPos t p.positions with
      | none => rfl
      | some pos0 => simp [updPos, hB]
    show lookupPos t (buyPhase cp ds (holdTier pipeline univ ds) 20
      (allocationFor (buyTier pipeline univ ds).length).2.1
      (totalValue (apply_selic_to_cash (update_prices p cp) ds selicDaily))
      .HOLD_EXPOSURE
      (buyPhase cp ds (buyTier pipeline univ ds) 15
        (allocationFor (buyTier pipeline univ ds).length).1
        (totalValue (apply_selic_to_cash (update_prices p cp) ds selicDaily))
        .REBALANCE
        (sellPhase cp ds
          (keep_tickers (buyTier pipeline univ ds)
            (holdTier pipeline univ ds))
          (apply_selic_to_cash (update_prices p cp) ds
            selicDaily)))).positions = lookupPos t p.positions
    rw [buyPhase_preserve_price_none _ _ _ _ _ _ _ _ _ hB,
      buyPhase_preserve_price_none _ _ _ _ _ _ _ _ _ hB,
      sellPhase_preserve_price_none _ _ _ _ _ hB, h1]

/-- C7.  During a rebalance a held ticker inside the keep set is neither sold
nor bought again: its position keeps its share count, entry data and stop
levels (only the tracked current price may move with the day's row), and no
trade for that ticker is emitted by the rebalance. -/
theorem kept_positions_unchanged (pipeline : Pipeline) (univ : List String)
    (cp : List (String × ℚ)) (ds : String) (p : Portfolio) (t : String)
    (pos : Position)
    (hheld : lookupPos t p.positions = some pos)
    (hkeep : t ∈ keep_tickers (buyTier pipeline univ ds)
      (holdTier pipeline univ ds)) :
    (∃ pos', lookupPos t (rebalance_portfolio pipeline univ cp ds p).positions
        = some pos'
      ∧ pos'.shares = pos.shares ∧ pos'.entryPrice = pos.entryPrice
      ∧ pos'.entryDate = pos.entryDate ∧ pos'.stopLoss = pos.stopLoss
      ∧ pos'.takeProfit = pos.takeProfit)
    ∧ ∃ Δ, (rebalance_portfolio pipeline univ cp ds p).trades = p.trades ++ Δ
      ∧ ∀ tr ∈ Δ, tr.ticker ≠ t := by
  have hl4 : lookupPos t (apply_selic_to_cash (update_prices p cp) ds
      selicDaily).positions = some (updPos cp t pos) := by
    show lookupPos t (update_prices p cp).positions = _
    rw [lookupPos_update_prices, hheld]
    rfl
  have hsell := sellPhase_preserve_of_keep cp ds
    (keep_tickers (buyTier pipeline univ ds) (holdTier pipeline univ ds))
    (apply_selic_to_cash (update_prices p cp) ds selicDaily)
    t (updPos cp t pos) hkeep hl4
  have hb1 := buyPhase_held_frame cp ds (buyTier pipeline univ ds) 15
    (allocationFor (buyTier pipeline univ ds).length).1
    (totalValue (apply_selic_to_cash (update_prices p cp) ds selicDaily))
    .REBALANCE
    (sellPhase cp ds
      (keep_tickers (buyTier pipeline univ ds) (holdTier pipeline univ ds))
      (apply_selic_to_cash (update_prices p cp) ds selicDaily))
    t (updPos cp t pos) hsell
  have hb2 := buyPhase_held_frame cp ds (holdTier pipeline univ ds) 20
    (allocationFor (buyTier pipeline univ ds).length).2.1
    (totalValue (apply_selic_to_cash (update_prices p cp) ds selicDaily))
    .HOLD_EXPOSURE
    (buyPhase cp ds (buyTier pipeline univ ds) 15
      (allocationFor (buyTier pipeline univ ds).length).1
      (totalValue (apply_selic_to_cash (update_prices p cp) ds selicDaily))
      .REBALANCE
      (sellPhase cp ds
        (keep_tickers (buyTier pipeline univ ds) (holdTier pipeline univ ds))
        (apply_selic_to_cash (update_prices p cp) ds selicDaily)))
    t (updPos cp t pos) hb1.1
  obtain ⟨hf1, hf2, hf3, hf4, hf5⟩ := updPos_fields cp t pos
  constructor
  · exact ⟨updPos cp t pos, hb2.1, hf1, hf2, hf3, hf4, hf5⟩
  · obtain ⟨Δ₁, hΔ₁, hP₁⟩ := sellPhase_trades_delta cp ds
      (keep_tickers (buyTier pipeline univ ds) (holdTier pipeline univ ds))
      (apply_selic_to_cash (update_prices p cp) ds selicDaily)
    obtain ⟨Δ₂, hΔ₂, hP₂⟩ := hb1.2
    obtain ⟨Δ₃, hΔ₃, hP₃⟩ := hb2.2
    refine ⟨Δ₁ ++ (Δ₂ ++ Δ₃), ?_, ?_⟩
    · show (buyPhase cp ds (holdTier pipeline univ ds) 20
        (allocationFor (buyTier pipeline univ ds).length).2.1
        (totalValue (apply_selic_to_cash (update_prices p cp) ds selicDaily))
        .HOLD_EXPOSURE
        (buyPhase cp ds (buyTier pipeline univ ds) 15
          (allocationFor (buyTier pipeline univ ds).length).1
          (totalValue (apply_selic_to_cash (update_prices p cp) ds
            selicDaily))
          .REBALANCE
          (sellPhase cp ds
            (keep_tickers (buyTier pipeline univ ds)
              (holdTier pipeline univ ds))
            (apply_selic_to_cash (update_prices p cp) ds
              selicDaily)))).trades = p.trades ++ (Δ₁ ++ (Δ₂ ++ Δ₃))
      rw [hΔ₃, hΔ₂, hΔ₁, apply_selic_trades, update_prices_trades,
        List.append_assoc, List.append_assoc]
    · intro tr htr
      rcases List.mem_append.mp htr with hm | hm
      · exact fun hc => (hP₁ tr hm).2.2.2 (hc ▸ hkeep)
      · rcases List.mem_append.mp hm with hm' | hm'
        · exact hP₂ tr hm'
        · exact hP₃ tr hm'

/-- A position whose stop-loss (9) sits below its entry price (10). -/
def stopPos : Position :=
  { shares := 10, entryPrice := 10, entryDate := "2024-1-2", stopLoss := 9,
    takeProfit := 20, currentPrice := 10 }

/-- `stopPos` after a price update to 8 — below the stop-loss. -/
def stopPosUpd : Position := { stopPos with currentPrice := 8 }

/-- A ledger holding one `"AAA"` position at `stopPos`. -/
def stopPortfolio : Portfolio :=
  { cash := 1000, positions := [("AAA", stopPos)], trades := [], history := [],
    commissionPct := 0.001, minPositionSize := 0.02, maxPositionSize := 0.10 }

/-- A ledger holding one `"BBB"` position at `stopPos`. -/
def sellPortfolio : Portfolio :=
  { cash := 1000, positions := [("BBB", stopPos)], trades := [], history := [],
    commissionPct := 0.001, minPositionSize := 0.02, maxPositionSize := 0.10 }

/-- Witness for C2: on a Monday a held `"AAA"` position whose updated price 8
breaches its stop-loss 9 is out of the position map in the state the
rebalancing strategy receives. -/
theorem stop_exit_visible_to_rebalance_witness :
    lookupPos "AAA" (check_stops (apply_selic_to_cash
      (update_prices stopPortfolio [("AAA", 8)]) mondayJan8.fmt selicDaily)
      mondayJan8.fmt).positions = none :=
  (stop_exit_visible_to_rebalance noPipeline ["AAA"] [mondayJan8]
    stopPortfolio mondayJan8 [("AAA", 8)] "AAA" stopPosUpd
    (List.mem_singleton_self _)
    rfl
    (by norm_num [stopPosUpd, stopPos])
    (by norm_num [stopPosUpd, stopPos])).2.1

/-- Witness for C5: a held `"BBB"` position outside the (empty) keep set with
a price in the day's row is gone after the rebalance. -/
theorem no_signal_liquidation_witness :
    lookupPos "BBB" (rebalance_portfolio noPipeline ["AAA"] [("BBB", 10)]
      "2024-1-8" sellPortfolio).positions = none :=
  ((no_signal_liquidation noPipeline ["AAA"] [("BBB", 10)] "2024-1-8"
    sellPortfolio "BBB"
    (by simp [keep_tickers, buyTier, holdTier, decisionsFor,
      run_agents_for_ticker, noPipeline, rank_signals])).1
    stopPos 10 rfl rfl (by norm_num)).1

/-- Witness for C7: a held `"AAA"` position kept by a BUY signal survives the
rebalance with its share count unchanged. -/
theorem kept_positions_unchanged_witness :
    ∃ pos', lookupPos "AAA" (rebalance_portfolio okPipeline ["AAA"]
        [("AAA", 10)] "2024-1-8" stopPortfolio).positions = some pos'
      ∧ pos'.shares = stopPos.shares ∧ pos'.entryPrice = stopPos.entryPrice
      ∧ pos'.entryDate = stopPos.entryDate ∧ pos'.stopLoss = stopPos.stopLoss
      ∧ pos'.takeProfit = stopPos.takeProfit :=
  (kept_positions_unchanged okPipeline ["AAA"] [("AAA", 10)] "2024-1-8"
    stopPortfolio "AAA" stopPos rfl
    (by simp [keep_tickers, buyTier, holdTier, decisionsFor,
      run_agents_for_ticker, okPipeline, okSenior, rank_signals,
      insertDesc])).1

end Spectrun
